import Mathlib

/-!
Verification development for the e-commerce cleaning-and-loading pipeline
(scripts/clean_data.py and scripts/load_to_db.py).

The cleaning stage is embedded as operations on a small tabular model:
a DataFrame is a schema (column names with pandas dtypes) together with a
list of rows, where each cell is an optional value (none models NaN/NaT).
The loading stage is embedded on typed record lists mirroring the cleaned
CSV columns and the star-schema dimension tables.
-/

namespace EcomPipeline

/-! ### Character-level models of the Python string operations

The Lean core string functions are not kernel-reducible, so the Python
text operations used by the scripts (str.lower, str.strip, substring
containment) are modelled structurally on the underlying character list.
-/

/-- Model of Python str.lower: lower-case every character. -/
def lowerStr (s : String) : String :=
  String.mk (s.data.map Char.toLower)

/-- Model of Python str.strip: drop whitespace from both ends. -/
def trimStr (s : String) : String :=
  String.mk (((s.data.dropWhile Char.isWhitespace).reverse.dropWhile
    Char.isWhitespace).reverse)

/-- Containment of a character sequence inside another, scanning left to right. -/
def containsSeq (pat : List Char) : List Char → Bool
  | [] => pat.isEmpty
  | c :: rest => pat.isPrefixOf (c :: rest) || containsSeq pat rest

/-- Model of the Python `pat in s` substring test. -/
def hasSubstr (pat s : String) : Bool :=
  containsSeq pat.data s.data

/-! ### Tabular data model for clean_data.py -/

/-- Pandas column dtype as the scripts distinguish them: object (text),
int64/float64 (numeric), and datetime64. -/
inductive DType
  | obj
  | num
  | date
deriving DecidableEq

/-- A concrete (non-missing) cell value. -/
inductive Val
  | vstr (s : String)
  | vnum (q : ℚ)
  | vdate (t : ℕ)
deriving DecidableEq

/-- A cell; none models a pandas missing value (NaN / NaT). -/
abbrev Cell := Option Val

/-- A row of cells, positionally aligned with the schema. -/
abbrev Row := List Cell

/-- A dataset: named, typed columns and a list of rows. -/
structure DataFrame where
  schema : List (String × DType)
  rows : List Row
deriving DecidableEq

/-- Cell of a row at column index j (none when out of range). -/
def cellAt (r : Row) (j : ℕ) : Cell := r.getD j none

/-- Dtype of column j. -/
def dtypeAt (df : DataFrame) (j : ℕ) : DType :=
  (df.schema.getD j ("", DType.obj)).2

/-- Name of column j. -/
def colName (df : DataFrame) (j : ℕ) : String :=
  (df.schema.getD j ("", DType.obj)).1

/-- Model of df[col].isnull().sum(): number of rows missing at column j. -/
def countMissing (df : DataFrame) (j : ℕ) : ℕ :=
  (df.rows.filter (fun r => (cellAt r j).isNone)).length

/-- The numeric (non-missing) values of column j, in row order; this is the
population pandas uses for median/mean/std on a numeric column. -/
def colNums (df : DataFrame) (j : ℕ) : List ℚ :=
  df.rows.filterMap (fun r =>
    match cellAt r j with
    | some (Val.vnum q) => some q
    | _ => none)

/-- Model of pandas Series.median over the non-missing values: middle element
of the sorted values, or the mean of the two middle elements; none on an
empty population (pandas returns NaN there, and fillna(NaN) is a no-op). -/
def median (l : List ℚ) : Option ℚ :=
  let s := List.insertionSort (fun a b => a ≤ b) l
  if s.length = 0 then none
  else if s.length % 2 = 1 then some (s.getD (s.length / 2) 0)
  else some ((s.getD (s.length / 2 - 1) 0 + s.getD (s.length / 2) 0) / 2)

/-- Model of Series.fillna at one cell: replace the cell at j by v only when
it is missing (a no-op when j is out of range, as rows match the schema). -/
def fillCell (r : Row) (j : ℕ) (v : Val) : Row :=
  match r.getD j none with
  | none => r.set j (some v)
  | some _ => r

/-- Typing discipline of a pandas column: a cell is missing or carries a
value of the column dtype. -/
def cellOk (t : DType) (c : Cell) : Bool :=
  match t, c with
  | _, none => true
  | DType.obj, some (Val.vstr _) => true
  | DType.num, some (Val.vnum _) => true
  | DType.date, some (Val.vdate _) => true
  | _, _ => false

/-- A row is well typed for a schema: right length, cells match dtypes. -/
def rowOk (schema : List (String × DType)) (r : Row) : Bool :=
  decide (r.length = schema.length) &&
    (List.range schema.length).all (fun j =>
      cellOk (schema.getD j ("", DType.obj)).2 (r.getD j none))

/-- A dataset is well typed when every row is. -/
def wellTyped (df : DataFrame) : Bool :=
  df.rows.all (rowOk df.schema)

/-- No column has datetime dtype (true of every freshly loaded CSV, which is
when handle_missing_values runs). -/
def noDateCol (df : DataFrame) : Bool :=
  df.schema.all (fun c => !(decide (c.2 = DType.date)))

/-! ### handle_missing_values (clean_data.py lines 56-103) -/

/-- One iteration of the column loop of handle_missing_values: skip when the
column has no missing values; drop the affected rows when the missing
fraction is below 5 percent (missing/len*100 < 5, i.e. missing*20 < len);
else fill text columns with the sentinel "Unknown"; else fill with the
median of the current non-missing values (a no-op when that median is
undefined, since fillna(NaN) changes nothing). -/
def handleCol (df : DataFrame) (j : ℕ) : DataFrame :=
  if countMissing df j = 0 then df
  else if countMissing df j * 20 < df.rows.length then
    { df with rows := df.rows.filter (fun r => (cellAt r j).isSome) }
  else if dtypeAt df j = DType.obj then
    { df with rows := df.rows.map (fun r => fillCell r j (Val.vstr "Unknown")) }
  else
    match median (colNums df j) with
    | some m => { df with rows := df.rows.map (fun r => fillCell r j (Val.vnum m)) }
    | none => df

/-- Model of handle_missing_values: the column loop, left to right over the
columns of the incoming dataset. -/
def handle_missing_values (df : DataFrame) : DataFrame :=
  (List.range df.schema.length).foldl handleCol df

/-- Postcondition of missing-value resolution on one column: no missing
values remain, or the column is entirely missing (the declared fatal
fully-empty numeric case, which fillna leaves untouched). -/
def colResolved (df : DataFrame) (j : ℕ) : Prop :=
  countMissing df j = 0 ∨ ∀ r ∈ df.rows, cellAt r j = none

/-! ### convert_date_columns (clean_data.py lines 105-135)

The actual parsing of one value is pd.to_datetime, an external library
facility; the conversion loop is therefore parameterised by the per-value
parser. A concrete minimal parser (parseDate, further below) instantiates
it for witnesses.
-/

/-- Replace the cell at index j of a row by the image of the current cell
(a no-op when j is out of range). -/
def mapCellAt (r : Row) (j : ℕ) (f : Cell → Cell) : Row :=
  r.set j (f (r.getD j none))

/-- One iteration of the loop of convert_date_columns: skip the column name
when absent; otherwise re-parse every cell with errors=coerce semantics
(missing stays missing, parse failure becomes missing) and set the column
dtype to datetime64. -/
def convertCol (parse : Val → Option Val) (df : DataFrame) (name : String) :
    DataFrame :=
  match df.schema.findIdx? (fun c => decide (c.1 = name)) with
  | none => df
  | some j =>
    { schema := df.schema.set j (name, DType.date),
      rows := df.rows.map (fun r => mapCellAt r j (fun c => c.bind parse)) }

/-- Model of convert_date_columns: the loop over the listed date columns. -/
def convert_date_columns (parse : Val → Option Val) (df : DataFrame)
    (dateCols : List String) : DataFrame :=
  dateCols.foldl (convertCol parse) df

/-- A dataset is a fixed point of the conversion of column n: where the
name resolves, the column already has datetime dtype and re-parsing every
cell of it changes nothing. Re-running the conversion loop on its own
output is the identity exactly because every listed column ends up in this
state. -/
def ConvFixed (parse : Val → Option Val) (g : DataFrame) (n : String) : Prop :=
  ∀ j, g.schema.findIdx? (fun c => decide (c.1 = n)) = some j →
    g.schema[j]? = some (n, DType.date) ∧
    ∀ r ∈ g.rows, (r.getD j none).bind parse = r.getD j none

/-! ### remove_duplicates (clean_data.py lines 137-176) -/

/-- First-occurrence deduplication by key, carrying the set of keys already
seen; this is drop_duplicates(keep=first) row order semantics. -/
def dedupeByAux {α κ : Type} [DecidableEq κ] (key : α → κ) (seen : List κ) :
    List α → List α
  | [] => []
  | x :: xs =>
    if key x ∈ seen then dedupeByAux key seen xs
    else x :: dedupeByAux key (key x :: seen) xs

/-- Keep the first occurrence of each key, in input order. -/
def dedupeBy {α κ : Type} [DecidableEq κ] (key : α → κ) (l : List α) : List α :=
  dedupeByAux key [] l

/-- Duplicate-detection key of a row: the whole row when no subset is given
(Python truthiness also sends an empty subset list to the all-columns
branch), otherwise the projection to the named columns. The scripts only
pass subsets whose names exist in the dataset. -/
def rowKey (subset : Option (List String)) (schema : List (String × DType))
    (r : Row) : List Cell :=
  match subset with
  | none => r
  | some [] => r
  | some names => names.map (fun n =>
      match schema.findIdx? (fun c => decide (c.1 = n)) with
      | some j => cellAt r j
      | none => none)

/-- Model of remove_duplicates: count the duplicated rows under the key and
drop them (keep=first) when any are found. Note pandas treats equal missing
values as duplicates of each other, as Option equality does here. -/
def remove_duplicates (df : DataFrame) (subset : Option (List String)) :
    DataFrame :=
  let key := rowKey subset df.schema
  let deduped := dedupeBy key df.rows
  if df.rows.length - deduped.length = 0 then df
  else { df with rows := deduped }

/-! ### standardize_text (clean_data.py lines 178-212) -/

/-- Model of Python str(x) on a cell, as astype(str) applies it elementwise:
a missing value prints as the literal string "nan". The renderings of
non-string values are irrelevant to the claims; only str cells and missing
cells occur in an object column. -/
def pyStr : Cell → String
  | none => "nan"
  | some (Val.vstr s) => s
  | some (Val.vnum q) => toString q
  | some (Val.vdate t) => toString t

/-- The elementwise astype(str).str.lower().str.strip() applied to the cell
at index j of one row. -/
def stdRow (r : Row) (j : ℕ) : Row :=
  r.set j (some (Val.vstr (trimStr (lowerStr (pyStr (r.getD j none))))))

/-- Standardization of the column at a resolved index: only object-typed
columns are touched. -/
def stdColAt (df : DataFrame) (j : ℕ) : DataFrame :=
  if dtypeAt df j = DType.obj then
    { df with rows := df.rows.map (fun r => stdRow r j) }
  else df

/-- One iteration of the loop of standardize_text: skip when the column is
absent or not of object dtype, otherwise astype(str).str.lower().str.strip()
elementwise. -/
def stdCol (df : DataFrame) (name : String) : DataFrame :=
  match df.schema.findIdx? (fun c => decide (c.1 = name)) with
  | none => df
  | some j => stdColAt df j

/-- Model of standardize_text: the loop over the listed text columns. -/
def standardize_text (df : DataFrame) (textCols : List String) : DataFrame :=
  textCols.foldl stdCol df

/-- Frame of text standardization relative to the incoming dataset: schema
unchanged, same number of rows, and every row keeps its length. -/
def baseStd (df g : DataFrame) : Prop :=
  g.schema = df.schema ∧ g.rows.length = df.rows.length ∧
  ∀ i, i < df.rows.length →
    (g.rows.getD i []).length = (df.rows.getD i []).length

/-- Column j of g still holds the original cells of df. -/
def colUntouched (df g : DataFrame) (j : ℕ) : Prop :=
  ∀ i, i < df.rows.length →
    (g.rows.getD i []).getD j none = (df.rows.getD i []).getD j none

/-- Column j of g has been standardized: every cell is a string, and a
cell that was missing in df now holds the literal string "nan". -/
def colStandardized (df g : DataFrame) (j : ℕ) : Prop :=
  ∀ i, i < df.rows.length →
    (∃ s, (g.rows.getD i []).getD j none = some (Val.vstr s)) ∧
    ((df.rows.getD i []).getD j none = none →
      (g.rows.getD i []).getD j none = some (Val.vstr "nan"))

/-! ### validate_data (clean_data.py lines 214-255) -/

/-- Column-name test for a non-negative business quantity: the lower-cased
name contains price, amount or quantity. -/
def isMonetaryName (s : String) : Bool :=
  hasSubstr "price" (lowerStr s) || hasSubstr "amount" (lowerStr s) ||
    hasSubstr "quantity" (lowerStr s)

/-- Model of select_dtypes(include=[int64, float64]): the indices of the
numeric columns, computed once from the incoming dataset. -/
def numericCols (df : DataFrame) : List ℕ :=
  (List.range df.schema.length).filter (fun j => decide (dtypeAt df j = DType.num))

/-- The numeric columns whose name signals a non-negative quantity. -/
def monetaryCols (df : DataFrame) : List ℕ :=
  (numericCols df).filter (fun j => isMonetaryName (colName df j))

/-- The pandas test df[col] < 0 on one cell: false on missing values. -/
def cellNeg (r : Row) (j : ℕ) : Bool :=
  match cellAt r j with
  | some (Val.vnum q) => decide (q < 0)
  | _ => false

/-- The pandas test df[col] >= 0 on one cell: false on missing values, so
the filter df[df[col] >= 0] drops missing cells along with negative ones. -/
def cellGE0 (r : Row) (j : ℕ) : Bool :=
  match cellAt r j with
  | some (Val.vnum q) => decide (0 ≤ q)
  | _ => false

/-- One iteration of the negative-value loop of validate_data: when the
column currently holds a negative value, keep only the rows passing
df[col] >= 0; otherwise leave the dataset alone. -/
def negStep (g : DataFrame) (j : ℕ) : DataFrame :=
  if (g.rows.filter (fun r => cellNeg r j)).length = 0 then g
  else { g with rows := g.rows.filter (fun r => cellGE0 r j) }

/-- The negative-value pass of validate_data over the monetary columns. -/
def negativeFilterStage (df : DataFrame) : DataFrame :=
  (monetaryCols df).foldl negStep df

/-- Model of the outlier report of validate_data for one numeric column:
the count of values exceeding mean + 3 * std (sample std, ddof=1), encoded
exactly over the rationals: x exceeds mean + 3*std iff x > mean and
(x - mean)^2 > 9 * variance. With fewer than two values pandas std is NaN
and the comparison is vacuously false. -/
def outlierCount (g : DataFrame) (j : ℕ) : ℕ :=
  let xs := colNums g j
  let n := xs.length
  if n ≤ 1 then 0
  else
    let mean : ℚ := xs.sum / n
    let varS : ℚ := (xs.map (fun x => (x - mean) ^ 2)).sum / (n - 1 : ℚ)
    (xs.filter (fun x => decide (mean < x) && decide (9 * varS < (x - mean) ^ 2))).length

/-- Model of validate_data: the negative-value pass mutates the dataset;
the outlier pass only computes counts (validationReport below) and removes
nothing, so the returned dataset is the negative-filtered one. -/
def validate_data (df : DataFrame) : DataFrame :=
  negativeFilterStage df

/-- The printed outlier counts of validate_data, one per numeric column,
computed over the dataset as it stands after the negative-value pass. -/
def validationReport (df : DataFrame) : List ℕ :=
  (numericCols df).map (outlierCount (validate_data df))

/-! ### Calendar arithmetic

Dates are day numbers counted from 1970-01-01 (the pandas epoch date);
timestamps are seconds from the epoch, so the calendar-date portion of a
timestamp t is t / 86400. 1970-01-01 was a Thursday, so the zero-based
Monday-start weekday index of day d is (d + 3) % 7.
-/

/-- Day number of a proleptic Gregorian civil date, counted from 1970-01-01
(the standard days-from-civil computation, using floor division). -/
def days_from_civil (y m d : ℤ) : ℤ :=
  let yAdj := if m ≤ 2 then y - 1 else y
  let era := yAdj / 400
  let yoe := yAdj - era * 400
  let mp := (m + 9) % 12
  let doy := (153 * mp + 2) / 5 + d - 1
  let doe := yoe * 365 + yoe / 4 - yoe / 100 + doy
  era * 146097 + doe - 719468

/-- Zero-based Monday-start weekday index of day number d. -/
def weekdayIdx (d : ℕ) : ℕ := (d + 3) % 7

/-- Weekday name for a zero-based Monday-start index. -/
def dayNameOf (w : ℕ) : String :=
  match w with
  | 0 => "Monday"
  | 1 => "Tuesday"
  | 2 => "Wednesday"
  | 3 => "Thursday"
  | 4 => "Friday"
  | 5 => "Saturday"
  | _ => "Sunday"

/-! ### generate_date_dimension (load_to_db.py lines 99-128) -/

/-- One record of the synthesized calendar dimension. The displayed
day_of_week is the one-based dates.dayofweek + 1, while is_weekend is
computed from the raw zero-based index; the attributes derived per day
independently of the range (year, quarter, month, ISO week) are elided. -/
structure CalendarRecord where
  date : ℕ
  day_of_week : ℕ
  day_name : String
  is_weekend : Bool
deriving DecidableEq

/-- The calendar record of day number d. -/
def mkCalendarRecord (d : ℕ) : CalendarRecord :=
  { date := d,
    day_of_week := weekdayIdx d + 1,
    day_name := dayNameOf (weekdayIdx d),
    is_weekend := decide (5 ≤ weekdayIdx d) }

/-- Model of generate_date_dimension: pd.date_range(start, end, freq=D) is
the inclusive day range start, start+1, ..., end (empty when start > end),
and each day yields one record. -/
def generate_date_dimension (s e : ℕ) : List CalendarRecord :=
  (List.range (e + 1 - s)).map (fun i => mkCalendarRecord (s + i))

/-! ### load_fact_orders (load_to_db.py lines 130-215)

The cleaned CSVs carry fixed named columns, so the fact-assembly stage is
embedded on typed records. Timestamps are optional (NaT from coerced
parsing survives into the cleaned orders CSV).
-/

/-- A cleaned order_items row (the columns load_fact_orders touches). -/
structure OrderItem where
  order_id : String
  order_item_id : ℕ
  product_id : String
  seller_id : String
  price : ℚ
  freight_value : ℚ
deriving DecidableEq

/-- A cleaned orders row (the columns selected into the merge). -/
structure OrderRow where
  order_id : String
  customer_id : String
  order_status : String
  order_purchase_timestamp : Option ℕ
  order_approved_at : Option ℕ
  order_delivered_carrier_date : Option ℕ
  order_delivered_customer_date : Option ℕ
  order_estimated_delivery_date : Option ℕ
deriving DecidableEq

/-- A persisted dim_customers row as read back (customer_key, customer_id). -/
structure DimCustomer where
  customer_key : ℕ
  customer_id : String
deriving DecidableEq

/-- A persisted dim_products row as read back (product_key, product_id). -/
structure DimProduct where
  product_key : ℕ
  product_id : String
deriving DecidableEq

/-- A persisted dim_date row as read back (date_key, date). -/
structure DimDateRow where
  date_key : ℕ
  date : ℕ
deriving DecidableEq

/-- A fact candidate while the surrogate keys are being resolved: the source
line item, the left-joined order header (none when the order_id had no
match), and the three optional surrogate keys. -/
structure FactCand where
  item : OrderItem
  ord : Option OrderRow
  customer_key : Option ℕ
  product_key : Option ℕ
  order_date_key : Option ℕ
deriving DecidableEq

/-- One left row of order_items.merge(orders[...], on=order_id, how=left):
one output row per match in the order of the right rows, or a single row
with null order columns when nothing matches. -/
def merge1One (orders : List OrderRow) (it : OrderItem) : List FactCand :=
  match orders.filter (fun o => decide (o.order_id = it.order_id)) with
  | [] => [{ item := it, ord := none, customer_key := none,
             product_key := none, order_date_key := none }]
  | ms => ms.map (fun o => { item := it, ord := some o, customer_key := none,
                             product_key := none, order_date_key := none })

/-- Model of order_items.merge(orders[...], on=order_id, how=left). -/
def merge1 (items : List OrderItem) (orders : List OrderRow) : List FactCand :=
  items.flatMap (merge1One orders)

/-- One row of the left merge with dim_customers on customer_id: a candidate
whose order header is missing has a null customer_id and matches nothing
(the dimension ids read from the sink are never null). -/
def addCustomerKeyOne (dim : List DimCustomer) (c : FactCand) : List FactCand :=
  match c.ord with
  | none => [c]
  | some o =>
    match dim.filter (fun d => decide (d.customer_id = o.customer_id)) with
    | [] => [c]
    | ms => ms.map (fun d => { c with customer_key := some d.customer_key })

/-- Model of the left merge with dim_customers on customer_id. -/
def addCustomerKey (dim : List DimCustomer) (cs : List FactCand) : List FactCand :=
  cs.flatMap (addCustomerKeyOne dim)

/-- One row of the left merge with dim_products on product_id (always
present on the line item). -/
def addProductKeyOne (dim : List DimProduct) (c : FactCand) : List FactCand :=
  match dim.filter (fun d => decide (d.product_id = c.item.product_id)) with
  | [] => [c]
  | ms => ms.map (fun d => { c with product_key := some d.product_key })

/-- Model of the left merge with dim_products on product_id. -/
def addProductKey (dim : List DimProduct) (cs : List FactCand) : List FactCand :=
  cs.flatMap (addProductKeyOne dim)

/-- Model of order_purchase_timestamp.dt.date: the calendar-day portion of
the purchase timestamp, missing when the header or the timestamp is. -/
def purchaseDate (c : FactCand) : Option ℕ :=
  (c.ord.bind OrderRow.order_purchase_timestamp).map (fun t => t / 86400)

/-- One row of the left merge with dim_date on order_date = date: the join
key is the calendar-day portion of the purchase timestamp, not the full
timestamp. -/
def addDateKeyOne (dim : List DimDateRow) (c : FactCand) : List FactCand :=
  match purchaseDate c with
  | none => [c]
  | some day =>
    match dim.filter (fun r => decide (r.date = day)) with
    | [] => [c]
    | ms => ms.map (fun r => { c with order_date_key := some r.date_key })

/-- Model of the left merge with dim_date on order_date = date. -/
def addDateKey (dim : List DimDateRow) (cs : List FactCand) : List FactCand :=
  cs.flatMap (addDateKeyOne dim)

/-- A row of the final fact selection, keys still nullable (the dropna on
the three keys happens next). -/
structure FactRow where
  order_id : String
  customer_key : Option ℕ
  product_key : Option ℕ
  order_date_key : Option ℕ
  order_item_id : ℕ
  price : ℚ
  freight_value : ℚ
  order_status : Option String
  seller_id : String
  order_purchase_timestamp : Option ℕ
  order_approved_at : Option ℕ
  order_delivered_carrier_date : Option ℕ
  order_delivered_customer_date : Option ℕ
  order_estimated_delivery_date : Option ℕ
deriving DecidableEq

/-- Projection of a resolved candidate onto the fact schema columns. -/
def toFactRow (c : FactCand) : FactRow :=
  { order_id := c.item.order_id,
    customer_key := c.customer_key,
    product_key := c.product_key,
    order_date_key := c.order_date_key,
    order_item_id := c.item.order_item_id,
    price := c.item.price,
    freight_value := c.item.freight_value,
    order_status := c.ord.map OrderRow.order_status,
    seller_id := c.item.seller_id,
    order_purchase_timestamp := c.ord.bind OrderRow.order_purchase_timestamp,
    order_approved_at := c.ord.bind OrderRow.order_approved_at,
    order_delivered_carrier_date := c.ord.bind OrderRow.order_delivered_carrier_date,
    order_delivered_customer_date := c.ord.bind OrderRow.order_delivered_customer_date,
    order_estimated_delivery_date := c.ord.bind OrderRow.order_estimated_delivery_date }

/-- Model of load_fact_orders from the cleaned inputs and the persisted
dimensions: merge line items with order headers, resolve the three
surrogate keys, project to the fact schema, and dropna on the three keys
before insertion. -/
def load_fact_orders (items : List OrderItem) (orders : List OrderRow)
    (cdim : List DimCustomer) (pdim : List DimProduct) (ddim : List DimDateRow) :
    List FactRow :=
  (((addDateKey ddim (addProductKey pdim (addCustomerKey cdim
      (merge1 items orders)))).map toFactRow).filter (fun f =>
        f.customer_key.isSome && f.product_key.isSome && f.order_date_key.isSome))

/-! ### A concrete datetime parser

The scripts delegate per-value parsing to pd.to_datetime, an external
library facility; the conversion theorems are proved for every parser that
is stable on already-parsed timestamps. The minimal ISO-date parser below
instantiates them for concrete witnesses.
-/

/-- Split a character list on a separator character. -/
def splitOnChar (c : Char) : List Char → List (List Char)
  | [] => [[]]
  | d :: rest =>
    if d = c then [] :: splitOnChar c rest
    else
      match splitOnChar c rest with
      | [] => [[d]]
      | p :: ps => (d :: p) :: ps

/-- Read a non-empty all-digit character list as a natural number. -/
def digitsToNat (l : List Char) : Option ℕ :=
  if l ≠ [] ∧ l.all Char.isDigit then
    some (l.foldl (fun n c => n * 10 + (c.toNat - 48)) 0)
  else none

/-- Parse a YYYY-MM-DD string into a second-resolution epoch timestamp. -/
def parseIsoDate (s : String) : Option ℕ :=
  match (splitOnChar '-' s.data).map digitsToNat with
  | [some y, some m, some d] =>
    if 1970 ≤ y ∧ 1 ≤ m ∧ m ≤ 12 ∧ 1 ≤ d ∧ d ≤ 31 then
      some ((days_from_civil (y : ℤ) (m : ℤ) (d : ℤ)).toNat * 86400)
    else none
  | _ => none

/-- A concrete stand-in for pd.to_datetime on one value: timestamps pass
through unchanged, strings parse on a minimal ISO grammar or fail to
missing, and other values fail to missing. -/
def parseDate : Val → Option Val
  | Val.vdate t => some (Val.vdate t)
  | Val.vstr s => (parseIsoDate s).map Val.vdate
  | Val.vnum _ => none

/-! ### Concrete datasets used by the witnesses -/

/-- A dataset whose single numeric column is entirely missing. -/
def allMissingDf : DataFrame :=
  { schema := [("score", DType.num)], rows := [[none], [none]] }

/-- A well-typed two-column dataset with one missing text cell and one
missing numeric cell (both at 25 percent, so both columns are filled). -/
def missingDemoDf : DataFrame :=
  { schema := [("city", DType.obj), ("price", DType.num)],
    rows := [[some (Val.vstr "rio"), none],
             [none, some (Val.vnum 40)],
             [some (Val.vstr "sao paulo"), some (Val.vnum 10)],
             [some (Val.vstr "recife"), some (Val.vnum 20)]] }

/-- A dataset holding duplicate rows, for the deduplication witness. -/
def dupDemoDf : DataFrame :=
  { schema := [("order_id", DType.obj), ("qty", DType.num)],
    rows := [[some (Val.vstr "a"), some (Val.vnum 1)],
             [some (Val.vstr "b"), some (Val.vnum 2)],
             [some (Val.vstr "a"), some (Val.vnum 1)],
             [some (Val.vstr "a"), some (Val.vnum 3)]] }

/-- A dataset whose monetary column holds a negative value and a missing
value: the pandas filter df[df[col] >= 0] drops both rows. -/
def negMissingDf : DataFrame :=
  { schema := [("price", DType.num)],
    rows := [[some (Val.vnum (-1))], [none]] }

/-- A dataset whose monetary column is fully populated, one value negative. -/
def negDemoDf : DataFrame :=
  { schema := [("price", DType.num)],
    rows := [[some (Val.vnum 5)], [some (Val.vnum (-2))], [some (Val.vnum 7)]] }

/-- A dataset with one text date column: a parseable value, an unparseable
value, and a missing value. -/
def dateDemoDf : DataFrame :=
  { schema := [("order_purchase_timestamp", DType.obj)],
    rows := [[some (Val.vstr "2017-05-10")],
             [some (Val.vstr "not a date")],
             [none]] }

/-- A dataset with one object column holding a messy value and a missing
value, for the text-standardization witness. -/
def textDemoDf : DataFrame :=
  { schema := [("order_status", DType.obj)],
    rows := [[some (Val.vstr "  DELIVERED ")], [none]] }

/-- The line items of the end-to-end fact witness: one item priced 100. -/
def witItems : List OrderItem :=
  [{ order_id := "o1", order_item_id := 1, product_id := "p1",
     seller_id := "s1", price := 100, freight_value := 10 }]

/-- The order headers of the fact witness: one order purchased at second
1494410400 of the epoch, i.e. 10:00 on day 17296 (2017-05-10). -/
def witOrders : List OrderRow :=
  [{ order_id := "o1", customer_id := "c1", order_status := "delivered",
     order_purchase_timestamp := some 1494410400,
     order_approved_at := none,
     order_delivered_carrier_date := none,
     order_delivered_customer_date := none,
     order_estimated_delivery_date := none }]

/-- The persisted customer dimension of the fact witness. -/
def witCdim : List DimCustomer := [{ customer_key := 7, customer_id := "c1" }]

/-- The persisted product dimension of the fact witness. -/
def witPdim : List DimProduct := [{ product_key := 9, product_id := "p1" }]

/-- The persisted date dimension of the fact witness: day 17296 is
2017-05-10. -/
def witDdim : List DimDateRow :=
  [{ date_key := 3, date := 17296 }, { date_key := 4, date := 17297 }]

/-- The single fact row the witness inputs produce. -/
def witFact : FactRow :=
  { order_id := "o1", customer_key := some 7, product_key := some 9,
    order_date_key := some 3, order_item_id := 1, price := 100,
    freight_value := 10, order_status := some "delivered", seller_id := "s1",
    order_purchase_timestamp := some 1494410400, order_approved_at := none,
    order_delivered_carrier_date := none, order_delivered_customer_date := none,
    order_estimated_delivery_date := none }

/-- A fact candidate whose purchase timestamp falls mid-day on day 17296,
for the date-key resolution witness. -/
def witCand : FactCand :=
  { item := { order_id := "o1", order_item_id := 1, product_id := "p1",
              seller_id := "s1", price := 100, freight_value := 10 },
    ord := some { order_id := "o1", customer_id := "c1",
                  order_status := "delivered",
                  order_purchase_timestamp := some 1494410400,
                  order_approved_at := none,
                  order_delivered_carrier_date := none,
                  order_delivered_customer_date := none,
                  order_estimated_delivery_date := none },
    customer_key := some 7, product_key := some 9, order_date_key := none }

/-! ## Lemmas and theorems -/

/-! ### Deduplication -/

theorem dedupeByAux_sublist {α κ : Type} [DecidableEq κ] (key : α → κ) :
    ∀ (l : List α) (seen : List κ), List.Sublist (dedupeByAux key seen l) l := by
  intro l
  induction l with
  | nil => intro seen; simp [dedupeByAux]
  | cons x xs ih =>
    intro seen
    simp only [dedupeByAux]
    by_cases hx : key x ∈ seen
    · simp only [if_pos hx]
      exact List.Sublist.cons x (ih seen)
    · simp only [if_neg hx]
      exact List.Sublist.cons₂ x (ih (key x :: seen))

theorem dedupeByAux_key_not_seen {α κ : Type} [DecidableEq κ] (key : α → κ) :
    ∀ (l : List α) (seen : List κ) (a : α),
      a ∈ dedupeByAux key seen l → key a ∉ seen := by
  intro l
  induction l with
  | nil => intro seen a ha; simp [dedupeByAux] at ha
  | cons x xs ih =>
    intro seen a ha
    simp only [dedupeByAux] at ha
    by_cases hx : key x ∈ seen
    · rw [if_pos hx] at ha
      exact ih seen a ha
    · rw [if_neg hx] at ha
      rcases List.mem_cons.mp ha with h | h
      · subst h; exact hx
      · intro hmem
        exact ih (key x :: seen) a h (List.mem_cons_of_mem _ hmem)

theorem dedupeByAux_pairwise {α κ : Type} [DecidableEq κ] (key : α → κ) :
    ∀ (l : List α) (seen : List κ),
      (dedupeByAux key seen l).Pairwise (fun a b => key a ≠ key b) := by
  intro l
  induction l with
  | nil => intro seen; simp [dedupeByAux]
  | cons x xs ih =>
    intro seen
    simp only [dedupeByAux]
    by_cases hx : key x ∈ seen
    · rw [if_pos hx]; exact ih seen
    · rw [if_neg hx]
      refine List.Pairwise.cons ?_ (ih (key x :: seen))
      intro b hb
      have := dedupeByAux_key_not_seen key xs (key x :: seen) b hb
      intro hEq
      exact this (hEq ▸ List.mem_cons_self _ _)

theorem dedupeByAux_eq_self {α κ : Type} [DecidableEq κ] (key : α → κ) :
    ∀ (l : List α) (seen : List κ),
      (∀ a ∈ l, key a ∉ seen) →
      l.Pairwise (fun a b => key a ≠ key b) →
      dedupeByAux key seen l = l := by
  intro l
  induction l with
  | nil => intro seen _ _; rfl
  | cons x xs ih =>
    intro seen hseen hpw
    have hx : key x ∉ seen := hseen x (List.mem_cons_self _ _)
    rcases List.pairwise_cons.mp hpw with ⟨hhead, htail⟩
    simp only [dedupeByAux, if_neg hx]
    congr 1
    refine ih (key x :: seen) ?_ htail
    intro a ha
    intro hmem
    rcases List.mem_cons.mp hmem with h | h
    · exact hhead a ha h.symm
    · exact hseen a (List.mem_cons_of_mem _ ha) h

theorem dedupeBy_idem {α κ : Type} [DecidableEq κ] (key : α → κ) (l : List α) :
    dedupeBy key (dedupeBy key l) = dedupeBy key l := by
  unfold dedupeBy
  exact dedupeByAux_eq_self key _ [] (by intro a _ h; simp at h)
    (dedupeByAux_pairwise key l [])

theorem dedupeByAux_find? {α κ : Type} [DecidableEq κ] (key : α → κ) :
    ∀ (l : List α) (seen : List κ) (k : κ), k ∉ seen →
      (dedupeByAux key seen l).find? (fun a => decide (key a = k)) =
        l.find? (fun a => decide (key a = k)) := by
  intro l
  induction l with
  | nil => intro seen k _; rfl
  | cons x xs ih =>
    intro seen k hk
    simp only [dedupeByAux]
    by_cases hx : key x ∈ seen
    · rw [if_pos hx]
      have hne : decide (key x = k) = false := by
        simp only [decide_eq_false_iff_not]
        intro h; exact hk (h ▸ hx)
      rw [ih seen k hk]
      simp [List.find?_cons, hne]
    · rw [if_neg hx]
      by_cases hEq : key x = k
      · have hpos : decide (key x = k) = true := by simp [hEq]
        simp [List.find?_cons, hpos]
      · have hneg : decide (key x = k) = false := by simp [hEq]
        simp only [List.find?_cons, hneg]
        refine ih (key x :: seen) k ?_
        intro hmem
        rcases List.mem_cons.mp hmem with h | h
        · exact hEq h.symm
        · exact hk h

theorem remove_duplicates_rows (df : DataFrame) (subset : Option (List String)) :
    (remove_duplicates df subset).rows = dedupeBy (rowKey subset df.schema) df.rows := by
  unfold remove_duplicates
  set key := rowKey subset df.schema
  set dd := dedupeBy key df.rows with hdd
  by_cases h : df.rows.length - dd.length = 0
  · rw [if_pos h]
    have hsub : List.Sublist dd df.rows := dedupeByAux_sublist key df.rows []
    have hlen : dd.length = df.rows.length :=
      Nat.le_antisymm (List.Sublist.length_le hsub) (Nat.le_of_sub_eq_zero h)
    exact (List.Sublist.eq_of_length hsub hlen).symm
  · rw [if_neg h]

theorem remove_duplicates_schema (df : DataFrame) (subset : Option (List String)) :
    (remove_duplicates df subset).schema = df.schema := by
  unfold remove_duplicates
  by_cases h : df.rows.length - (dedupeBy (rowKey subset df.schema) df.rows).length = 0
  · rw [if_pos h]
  · rw [if_neg h]

/-- Claim C5: deduplication with no key subset uses full-row equality, and
with a key subset keeps the first occurrence among equal-key rows in input
order, dropping the rest: the result is a subsequence of the input, its
keys are pairwise distinct (full rows pairwise distinct when subset is
none), the first row found for any key is the same before and after, and
the operation is idempotent. -/
theorem remove_duplicates_spec (df : DataFrame) (subset : Option (List String)) :
    (remove_duplicates df subset).schema = df.schema ∧
    List.Sublist (remove_duplicates df subset).rows df.rows ∧
    (remove_duplicates df subset).rows.Pairwise
      (fun a b => rowKey subset df.schema a ≠ rowKey subset df.schema b) ∧
    (∀ k : List Cell,
      (remove_duplicates df subset).rows.find?
          (fun r => decide (rowKey subset df.schema r = k)) =
        df.rows.find? (fun r => decide (rowKey subset df.schema r = k))) ∧
    remove_duplicates (remove_duplicates df subset) subset =
      remove_duplicates df subset ∧
    (subset = none → (remove_duplicates df subset).rows.Nodup) := by
  have hrows := remove_duplicates_rows df subset
  have hschema := remove_duplicates_schema df subset
  refine ⟨hschema, ?_, ?_, ?_, ?_, ?_⟩
  · rw [hrows]; exact dedupeByAux_sublist _ df.rows []
  · rw [hrows]; exact dedupeByAux_pairwise _ df.rows []
  · intro k
    rw [hrows]
    exact dedupeByAux_find? _ df.rows [] k (by simp)
  · have h2 := remove_duplicates_rows (remove_duplicates df subset) subset
    have hkey : rowKey subset (remove_duplicates df subset).schema =
        rowKey subset df.schema := by rw [hschema]
    cases hd : remove_duplicates df subset with
    | mk sch rws =>
      cases hd2 : remove_duplicates { schema := sch, rows := rws } subset with
      | mk sch2 rws2 =>
        have hs2 : sch2 = sch := by
          have := remove_duplicates_schema { schema := sch, rows := rws } subset
          rw [hd2] at this; exact this
        have hr2 : rws2 = rws := by
          have := remove_duplicates_rows { schema := sch, rows := rws } subset
          rw [hd2] at this
          simp only at this
          rw [this]
          have hsch : sch = df.schema := by
            have := hschema; rw [hd] at this; exact this
          have hrws : rws = dedupeBy (rowKey subset df.schema) df.rows := by
            have := hrows; rw [hd] at this; exact this
          rw [hsch, hrws]
          exact dedupeBy_idem _ _
        rw [hs2, hr2]
  · intro hnone
    rw [hrows, hnone]
    have hpw := dedupeByAux_pairwise (rowKey none df.schema) df.rows []
    simp only [rowKey] at hpw ⊢
    exact hpw

/-- Claim C5 witness: on a concrete dataset with duplicate rows the
operation is idempotent and, with no key subset, leaves no duplicate rows. -/
theorem remove_duplicates_spec_witness :
    remove_duplicates (remove_duplicates dupDemoDf none) none =
      remove_duplicates dupDemoDf none ∧
    (remove_duplicates dupDemoDf none).rows.Nodup := by
  have h := remove_duplicates_spec dupDemoDf none
  exact ⟨h.2.2.2.2.1, h.2.2.2.2.2 rfl⟩

/-! ### Calendar synthesis -/

/-- Claim C4: for start <= end the synthesized calendar holds exactly
end - start + 1 records, the record at position i is the record of day
start + i (so days are contiguous with no gaps and no duplicates, one
record per calendar day of the range), and the weekend flag of every
record holds exactly when the zero-based Monday-start weekday index of its
day is at least 5. -/
theorem generate_date_dimension_spec (s e : ℕ) (h : s ≤ e) :
    (generate_date_dimension s e).length = e - s + 1 ∧
    (∀ i, i < (generate_date_dimension s e).length →
      ((generate_date_dimension s e).getD i (mkCalendarRecord 0)).date = s + i) ∧
    ((generate_date_dimension s e).map CalendarRecord.date).Nodup ∧
    (∀ d, s ≤ d → d ≤ e → ∃ r ∈ generate_date_dimension s e, r.date = d) ∧
    (∀ r ∈ generate_date_dimension s e,
      r.is_weekend = decide (5 ≤ weekdayIdx r.date)) := by
  have hlen : (generate_date_dimension s e).length = e + 1 - s := by
    simp [generate_date_dimension]
  refine ⟨?_, ?_, ?_, ?_, ?_⟩
  · rw [hlen]; omega
  · intro i hi
    rw [hlen] at hi
    simp only [generate_date_dimension, List.getD_eq_getElem?_getD,
      List.getElem?_map, List.getElem?_range hi]
    rfl
  · have : (generate_date_dimension s e).map CalendarRecord.date =
        (List.range (e + 1 - s)).map (fun i => s + i) := by
      simp [generate_date_dimension, Function.comp, mkCalendarRecord]
    rw [this]
    exact (List.nodup_range _).map (fun a b hab => by omega)
  · intro d hsd hde
    refine ⟨mkCalendarRecord d, ?_, rfl⟩
    simp only [generate_date_dimension, List.mem_map, List.mem_range]
    exact ⟨d - s, by omega, by congr 1; omega⟩
  · intro r hr
    simp only [generate_date_dimension, List.mem_map] at hr
    rcases hr with ⟨i, _, hi⟩
    subst hi
    rfl

/-- Claim C4 witness: the range 2016-01-01 .. 2016-01-03 (days 16801 to
16803) yields exactly 3 records, and the record of Saturday 2016-01-02 is
flagged as a weekend day. -/
theorem generate_date_dimension_spec_witness :
    (generate_date_dimension (days_from_civil 2016 1 1).toNat
      (days_from_civil 2016 1 3).toNat).length = 3 ∧
    ((generate_date_dimension (days_from_civil 2016 1 1).toNat
      (days_from_civil 2016 1 3).toNat).getD 1 (mkCalendarRecord 0)).date =
        (days_from_civil 2016 1 2).toNat ∧
    ((generate_date_dimension (days_from_civil 2016 1 1).toNat
      (days_from_civil 2016 1 3).toNat).getD 1 (mkCalendarRecord 0)).is_weekend =
        true := by
  have h := generate_date_dimension_spec (days_from_civil 2016 1 1).toNat
    (days_from_civil 2016 1 3).toNat (by decide)
  refine ⟨h.1.trans (by decide), ?_, ?_⟩
  · exact (h.2.1 1 (by rw [h.1]; decide)).trans (by decide)
  · have hd := h.2.1 1 (by rw [h.1]; decide)
    have hw := h.2.2.2.2 ((generate_date_dimension (days_from_civil 2016 1 1).toNat
      (days_from_civil 2016 1 3).toNat).getD 1 (mkCalendarRecord 0)) ?_
    · rw [hw, hd]; decide
    · have h3 : 1 < (generate_date_dimension (days_from_civil 2016 1 1).toNat
        (days_from_civil 2016 1 3).toNat).length := by rw [h.1]; decide
      rw [List.getD_eq_getElem _ (mkCalendarRecord 0) h3]
      exact List.getElem_mem h3

/-! ### Cell and typing infrastructure -/

theorem cellAt_set_ne (r : Row) (j k : ℕ) (a : Cell) (h : k ≠ j) :
    cellAt (r.set k a) j = cellAt r j := by
  simp only [cellAt, List.getD_eq_getElem?_getD, List.getElem?_set_ne h]

theorem fillCell_cellAt_ne (r : Row) (j k : ℕ) (v : Val) (h : k ≠ j) :
    cellAt (fillCell r k v) j = cellAt r j := by
  unfold fillCell
  cases r.getD k none with
  | none => exact cellAt_set_ne r j k (some v) h
  | some w => rfl

theorem fillCell_length (r : Row) (k : ℕ) (v : Val) :
    (fillCell r k v).length = r.length := by
  unfold fillCell
  cases r.getD k none with
  | none => exact List.length_set r k (some v)
  | some w => rfl

theorem fillCell_of_length_le (r : Row) (k : ℕ) (v : Val) (h : r.length ≤ k) :
    fillCell r k v = r := by
  unfold fillCell
  have : r.getD k none = none := List.getD_eq_default r none h
  rw [this]
  exact List.set_eq_of_length_le h

theorem fillCell_isSome (r : Row) (k : ℕ) (v : Val) (hk : k < r.length) :
    (cellAt (fillCell r k v) k).isSome = true := by
  unfold fillCell
  cases hc : r.getD k none with
  | none =>
    simp only [cellAt, List.getD_eq_getElem?_getD, List.getElem?_set_self hk]
    rfl
  | some w =>
    simp only [cellAt, hc]
    rfl

theorem fillCell_cellAt_value (r : Row) (k : ℕ) (v : Val) :
    cellAt (fillCell r k v) k = cellAt r k ∨
      cellAt (fillCell r k v) k = some v := by
  unfold fillCell
  cases hc : r.getD k none with
  | none =>
    by_cases hk : k < r.length
    · right
      simp only [cellAt, List.getD_eq_getElem?_getD, List.getElem?_set_self hk]
      rfl
    · left
      rw [List.set_eq_of_length_le (Nat.le_of_not_lt hk)]
  | some w => left; rfl

theorem countMissing_eq_zero_iff (df : DataFrame) (j : ℕ) :
    countMissing df j = 0 ↔ ∀ r ∈ df.rows, (cellAt r j).isSome = true := by
  unfold countMissing
  rw [List.length_eq_zero, List.filter_eq_nil_iff]
  constructor
  · intro h r hr
    have h2 := h r hr
    cases hc : cellAt r j with
    | none => rw [hc] at h2; exact absurd rfl h2
    | some v => rfl
  · intro h r hr
    have h2 := h r hr
    cases hc : cellAt r j with
    | none => rw [hc] at h2; exact absurd h2 (by simp)
    | some v => simp

theorem rowOk_length {schema : List (String × DType)} {r : Row}
    (h : rowOk schema r = true) : r.length = schema.length := by
  unfold rowOk at h
  rw [Bool.and_eq_true] at h
  exact of_decide_eq_true h.1

theorem rowOk_cellOk {schema : List (String × DType)} {r : Row}
    (h : rowOk schema r = true) (j : ℕ) :
    cellOk (schema.getD j ("", DType.obj)).2 (cellAt r j) = true := by
  by_cases hj : j < schema.length
  · unfold rowOk at h
    rw [Bool.and_eq_true] at h
    have := List.all_eq_true.mp h.2 j (List.mem_range.mpr hj)
    exact this
  · have hlen : r.length ≤ j := by
      rw [rowOk_length h]; omega
    have hc : cellAt r j = none := List.getD_eq_default r none hlen
    rw [hc]
    cases (schema.getD j ("", DType.obj)).2 <;> rfl

theorem rowOk_fillCell {schema : List (String × DType)} {r : Row}
    (h : rowOk schema r = true) (k : ℕ) (v : Val)
    (hv : cellOk (schema.getD k ("", DType.obj)).2 (some v) = true) :
    rowOk schema (fillCell r k v) = true := by
  unfold rowOk
  rw [Bool.and_eq_true]
  constructor
  · rw [fillCell_length]
    exact decide_eq_true (rowOk_length h)
  · rw [List.all_eq_true]
    intro j hj
    by_cases hjk : k = j
    · subst hjk
      have hgoal : (fillCell r k v).getD k none = cellAt (fillCell r k v) k := rfl
      rw [hgoal]
      rcases fillCell_cellAt_value r k v with hc | hc
      · rw [hc]; exact rowOk_cellOk h k
      · rw [hc]; exact hv
    · have hgoal : (fillCell r k v).getD j none = cellAt (fillCell r k v) j := rfl
      rw [hgoal, fillCell_cellAt_ne r j k v hjk]
      exact rowOk_cellOk h j

theorem cellOk_num {c : Cell} (h : cellOk DType.num c = true) :
    c = none ∨ ∃ q, c = some (Val.vnum q) := by
  cases c with
  | none => exact Or.inl rfl
  | some v =>
    cases v with
    | vstr s => simp [cellOk] at h
    | vnum q => exact Or.inr ⟨q, rfl⟩
    | vdate t => simp [cellOk] at h

theorem dtypeAt_num_of_ne_obj (df : DataFrame) (k : ℕ)
    (hnd : noDateCol df = true) (hobj : dtypeAt df k ≠ DType.obj) :
    dtypeAt df k = DType.num ∧ k < df.schema.length := by
  by_cases hk : k < df.schema.length
  · refine ⟨?_, hk⟩
    have hd : dtypeAt df k ≠ DType.date := by
      unfold noDateCol at hnd
      rw [List.all_eq_true] at hnd
      have hmem : df.schema.getD k ("", DType.obj) ∈ df.schema := by
        rw [List.getD_eq_getElem _ _ hk]
        exact List.getElem_mem hk
      have := hnd _ hmem
      intro hcon
      rw [show df.schema.getD k ("", DType.obj) =
        (colName df k, dtypeAt df k) from rfl] at this
      rw [hcon] at this
      simp at this
    cases h : dtypeAt df k with
    | obj => exact absurd h hobj
    | num => rfl
    | date => exact absurd h hd
  · exfalso
    apply hobj
    unfold dtypeAt
    rw [List.getD_eq_default _ _ (Nat.le_of_not_lt hk)]

theorem colNums_nil_all_missing (df : DataFrame) (k : ℕ)
    (hwt : wellTyped df = true) (hnd : noDateCol df = true)
    (hobj : dtypeAt df k ≠ DType.obj) (hnil : colNums df k = []) :
    ∀ r ∈ df.rows, cellAt r k = none := by
  intro r hr
  have hok : rowOk df.schema r = true := by
    unfold wellTyped at hwt
    rw [List.all_eq_true] at hwt
    exact hwt r hr
  have hnum : dtypeAt df k = DType.num := (dtypeAt_num_of_ne_obj df k hnd hobj).1
  have hc : cellOk DType.num (cellAt r k) = true := by
    have := rowOk_cellOk hok k
    rw [show (df.schema.getD k ("", DType.obj)).2 = dtypeAt df k from rfl, hnum] at this
    exact this
  rcases cellOk_num hc with h | ⟨q, h⟩
  · exact h
  · exfalso
    have hq : q ∈ colNums df k := by
      unfold colNums
      rw [List.mem_filterMap]
      exact ⟨r, hr, by rw [h]⟩
    rw [hnil] at hq
    simp at hq

theorem median_ne_none {l : List ℚ} (h : l ≠ []) : median l ≠ none := by
  unfold median
  have hlen : (List.insertionSort (fun a b => a ≤ b) l).length = l.length :=
    List.length_insertionSort _ l
  have h0 : (List.insertionSort (fun a b => a ≤ b) l).length ≠ 0 := by
    rw [hlen]
    exact fun hc => h (List.length_eq_zero.mp hc)
  simp only [if_neg h0]
  by_cases hp : (List.insertionSort (fun a b => a ≤ b) l).length % 2 = 1
  · rw [if_pos hp]; simp
  · rw [if_neg hp]; simp

/-! ### The handle_missing_values column loop -/

theorem handleCol_schema (df : DataFrame) (k : ℕ) :
    (handleCol df k).schema = df.schema := by
  unfold handleCol
  by_cases h0 : countMissing df k = 0
  · rw [if_pos h0]
  · rw [if_neg h0]
    by_cases h1 : countMissing df k * 20 < df.rows.length
    · rw [if_pos h1]
    · rw [if_neg h1]
      by_cases h2 : dtypeAt df k = DType.obj
      · rw [if_pos h2]
      · rw [if_neg h2]
        cases median (colNums df k) with
        | none => rfl
        | some m => rfl

theorem colResolved_of_subset {df g : DataFrame} (j : ℕ)
    (hsub : ∀ r ∈ g.rows, r ∈ df.rows) (h : colResolved df j) :
    colResolved g j := by
  rcases h with h | h
  · left
    rw [countMissing_eq_zero_iff] at h ⊢
    intro r hr
    exact h r (hsub r hr)
  · right
    intro r hr
    exact h r (hsub r hr)

theorem colResolved_of_map {df g : DataFrame} (j : ℕ) (m : Row → Row)
    (hrows : g.rows = df.rows.map m)
    (hcell : ∀ r, cellAt (m r) j = cellAt r j)
    (h : colResolved df j) : colResolved g j := by
  rcases h with h | h
  · left
    rw [countMissing_eq_zero_iff] at h ⊢
    intro r hr
    rw [hrows, List.mem_map] at hr
    rcases hr with ⟨r0, hr0, hr0e⟩
    rw [← hr0e, hcell r0]
    exact h r0 hr0
  · right
    intro r hr
    rw [hrows, List.mem_map] at hr
    rcases hr with ⟨r0, hr0, hr0e⟩
    rw [← hr0e, hcell r0]
    exact h r0 hr0

theorem wellTyped_rows {df : DataFrame} (hwt : wellTyped df = true) :
    ∀ r ∈ df.rows, rowOk df.schema r = true := by
  unfold wellTyped at hwt
  exact List.all_eq_true.mp hwt

theorem wellTyped_handleCol (df : DataFrame) (k : ℕ)
    (hwt : wellTyped df = true) (hnd : noDateCol df = true) :
    wellTyped (handleCol df k) = true := by
  unfold handleCol
  by_cases h0 : countMissing df k = 0
  · rw [if_pos h0]; exact hwt
  · rw [if_neg h0]
    by_cases h1 : countMissing df k * 20 < df.rows.length
    · rw [if_pos h1]
      unfold wellTyped
      rw [List.all_eq_true]
      intro r hr
      simp only [List.mem_filter] at hr
      exact wellTyped_rows hwt r hr.1
    · rw [if_neg h1]
      by_cases h2 : dtypeAt df k = DType.obj
      · rw [if_pos h2]
        unfold wellTyped
        rw [List.all_eq_true]
        intro r hr
        simp only [List.mem_map] at hr
        rcases hr with ⟨r0, hr0, hr0e⟩
        rw [← hr0e]
        refine rowOk_fillCell (wellTyped_rows hwt r0 hr0) k (Val.vstr "Unknown") ?_
        rw [show (df.schema.getD k ("", DType.obj)).2 = dtypeAt df k from rfl, h2]
        rfl
      · rw [if_neg h2]
        cases hm : median (colNums df k) with
        | none => exact hwt
        | some m =>
          unfold wellTyped
          rw [List.all_eq_true]
          intro r hr
          simp only [List.mem_map] at hr
          rcases hr with ⟨r0, hr0, hr0e⟩
          rw [← hr0e]
          refine rowOk_fillCell (wellTyped_rows hwt r0 hr0) k (Val.vnum m) ?_
          rw [show (df.schema.getD k ("", DType.obj)).2 = dtypeAt df k from rfl,
            (dtypeAt_num_of_ne_obj df k hnd h2).1]
          rfl

theorem colResolved_handleCol_self (df : DataFrame) (k : ℕ)
    (hwt : wellTyped df = true) (hnd : noDateCol df = true) :
    colResolved (handleCol df k) k := by
  unfold handleCol
  by_cases h0 : countMissing df k = 0
  · rw [if_pos h0]; exact Or.inl h0
  · rw [if_neg h0]
    by_cases h1 : countMissing df k * 20 < df.rows.length
    · rw [if_pos h1]
      left
      rw [countMissing_eq_zero_iff]
      intro r hr
      simp only [List.mem_filter] at hr
      exact hr.2
    · rw [if_neg h1]
      by_cases h2 : dtypeAt df k = DType.obj
      · rw [if_pos h2]
        by_cases hk : k < df.schema.length
        · left
          rw [countMissing_eq_zero_iff]
          intro r hr
          simp only [List.mem_map] at hr
          rcases hr with ⟨r0, hr0, hr0e⟩
          rw [← hr0e]
          refine fillCell_isSome r0 k (Val.vstr "Unknown") ?_
          rw [rowOk_length (wellTyped_rows hwt r0 hr0)]
          exact hk
        · right
          intro r hr
          simp only [List.mem_map] at hr
          rcases hr with ⟨r0, hr0, hr0e⟩
          have hlen : r0.length ≤ k := by
            rw [rowOk_length (wellTyped_rows hwt r0 hr0)]
            omega
          rw [← hr0e, fillCell_of_length_le r0 k _ hlen]
          exact List.getD_eq_default r0 none hlen
      · rw [if_neg h2]
        cases hm : median (colNums df k) with
        | none =>
          right
          have hnil : colNums df k = [] := by
            by_contra hne
            exact median_ne_none hne hm
          exact colNums_nil_all_missing df k hwt hnd h2 hnil
        | some m =>
          left
          rw [countMissing_eq_zero_iff]
          intro r hr
          simp only [List.mem_map] at hr
          rcases hr with ⟨r0, hr0, hr0e⟩
          rw [← hr0e]
          refine fillCell_isSome r0 k (Val.vnum m) ?_
          rw [rowOk_length (wellTyped_rows hwt r0 hr0)]
          exact (dtypeAt_num_of_ne_obj df k hnd h2).2

theorem colResolved_handleCol (df : DataFrame) (k j : ℕ)
    (hwt : wellTyped df = true) (hnd : noDateCol df = true)
    (h : colResolved df j) : colResolved (handleCol df k) j := by
  by_cases hjk : k = j
  · subst hjk
    exact colResolved_handleCol_self df k hwt hnd
  · unfold handleCol
    by_cases h0 : countMissing df k = 0
    · rw [if_pos h0]; exact h
    · rw [if_neg h0]
      by_cases h1 : countMissing df k * 20 < df.rows.length
      · rw [if_pos h1]
        refine colResolved_of_subset j ?_ h
        intro r hr
        simp only [List.mem_filter] at hr
        exact hr.1
      · rw [if_neg h1]
        by_cases h2 : dtypeAt df k = DType.obj
        · rw [if_pos h2]
          exact colResolved_of_map j _ rfl
            (fun r => fillCell_cellAt_ne r j k _ hjk) h
        · rw [if_neg h2]
          cases median (colNums df k) with
          | none => exact h
          | some m =>
            exact colResolved_of_map j _ rfl
              (fun r => fillCell_cellAt_ne r j k _ hjk) h

theorem noDateCol_of_schema {df g : DataFrame} (hs : g.schema = df.schema)
    (hnd : noDateCol df = true) : noDateCol g = true := by
  unfold noDateCol at hnd ⊢
  rw [hs]
  exact hnd

theorem handle_fold_invariant (df : DataFrame) :
    ∀ (L : List ℕ) (g : DataFrame), g.schema = df.schema →
      wellTyped g = true → noDateCol g = true →
      ((L.foldl handleCol g).schema = df.schema ∧
       wellTyped (L.foldl handleCol g) = true ∧
       (∀ j, colResolved g j → colResolved (L.foldl handleCol g) j) ∧
       (∀ j ∈ L, colResolved (L.foldl handleCol g) j)) := by
  intro L
  induction L with
  | nil =>
    intro g hs hwt hnd
    exact ⟨hs, hwt, fun j h => h, fun j hj => absurd hj (by simp)⟩
  | cons k L ih =>
    intro g hs hwt hnd
    rw [List.foldl_cons]
    have hs2 : (handleCol g k).schema = df.schema := by
      rw [handleCol_schema]; exact hs
    have hwt2 : wellTyped (handleCol g k) = true :=
      wellTyped_handleCol g k hwt hnd
    have hnd2 : noDateCol (handleCol g k) = true :=
      noDateCol_of_schema (by rw [handleCol_schema, hs]) hnd
    rcases ih (handleCol g k) hs2 hwt2 hnd2 with ⟨ha, hb, hc, hd⟩
    refine ⟨ha, hb, ?_, ?_⟩
    · intro j hj
      exact hc j (colResolved_handleCol g k j hwt hnd hj)
    · intro j hj
      rcases List.mem_cons.mp hj with hj | hj
      · subst hj
        exact hc j (colResolved_handleCol_self g j hwt hnd)
      · exact hd j hj

/-- Claim C2: for each column with missing values the column step of
missing-value resolution drops the affected rows when the missing fraction
is below 5 percent, fills textual columns with the sentinel "Unknown"
otherwise, and fills numeric columns with the median of the current
non-missing values otherwise; and after the full pass every column of a
well-typed dataset has no missing values, except that a fully missing
numeric column stays fully missing (the declared fatal case). -/
theorem handle_missing_values_spec (df : DataFrame)
    (hwt : wellTyped df = true) (hnd : noDateCol df = true) :
    (∀ j, j < df.schema.length → colResolved (handle_missing_values df) j) ∧
    (∀ (g : DataFrame) (j : ℕ), 0 < countMissing g j →
      ((countMissing g j * 20 < g.rows.length →
         handleCol g j =
           { g with rows := g.rows.filter (fun r => (cellAt r j).isSome) }) ∧
       (¬ countMissing g j * 20 < g.rows.length → dtypeAt g j = DType.obj →
         handleCol g j =
           { g with rows := g.rows.map (fun r => fillCell r j (Val.vstr "Unknown")) }) ∧
       (∀ m, ¬ countMissing g j * 20 < g.rows.length → dtypeAt g j ≠ DType.obj →
         median (colNums g j) = some m →
         handleCol g j =
           { g with rows := g.rows.map (fun r => fillCell r j (Val.vnum m)) }))) := by
  constructor
  · intro j hj
    have h := handle_fold_invariant df (List.range df.schema.length) df rfl hwt hnd
    exact h.2.2.2 j (List.mem_range.mpr hj)
  · intro g j hmiss
    have h0 : ¬ countMissing g j = 0 := by omega
    refine ⟨?_, ?_, ?_⟩
    · intro h1
      unfold handleCol
      rw [if_neg h0, if_pos h1]
    · intro h1 h2
      unfold handleCol
      rw [if_neg h0, if_neg h1, if_pos h2]
    · intro m h1 h2 hm
      unfold handleCol
      rw [if_neg h0, if_neg h1, if_neg h2, hm]

/-- Claim C2 witness: on a concrete well-typed dataset with a missing text
cell and a missing numeric cell, every column is fully resolved after
missing-value handling. -/
theorem handle_missing_values_spec_witness :
    colResolved (handle_missing_values missingDemoDf) 0 ∧
    colResolved (handle_missing_values missingDemoDf) 1 := by
  have h := handle_missing_values_spec missingDemoDf (by decide) (by decide)
  exact ⟨h.1 0 (by decide), h.1 1 (by decide)⟩

/-- Claim C3: on a dataset whose numeric column is entirely missing,
missing-value resolution does not abort and does not fill the column: the
dataset comes back unchanged with both cells still missing, while the
claim and the spec require this degenerate-median case to be a fatal data
error. -/
theorem handle_missing_values_all_missing_not_fatal :
    handle_missing_values allMissingDf = allMissingDf ∧
    countMissing (handle_missing_values allMissingDf) 0 = 2 := by
  constructor
  · decide
  · decide

/-! ### The validate_data negative-value pass -/

theorem negStep_schema (g : DataFrame) (j : ℕ) :
    (negStep g j).schema = g.schema := by
  unfold negStep
  by_cases h : (g.rows.filter (fun r => cellNeg r j)).length = 0
  · rw [if_pos h]
  · rw [if_neg h]

theorem negStep_sublist (g : DataFrame) (j : ℕ) :
    List.Sublist (negStep g j).rows g.rows := by
  unfold negStep
  by_cases h : (g.rows.filter (fun r => cellNeg r j)).length = 0
  · rw [if_pos h]
  · rw [if_neg h]
    exact List.filter_sublist g.rows

theorem negStep_no_neg (g : DataFrame) (j : ℕ) :
    ∀ r ∈ (negStep g j).rows, cellNeg r j = false := by
  unfold negStep
  by_cases h : (g.rows.filter (fun r => cellNeg r j)).length = 0
  · rw [if_pos h]
    intro r hr
    have hnil := List.length_eq_zero.mp h
    rw [List.filter_eq_nil_iff] at hnil
    have := hnil r hr
    cases hc : cellNeg r j with
    | false => rfl
    | true => exact absurd hc this
  · rw [if_neg h]
    intro r hr
    simp only [List.mem_filter] at hr
    have hge := hr.2
    cases hc : cellAt r j with
    | none => simp [cellNeg, hc]
    | some v =>
      cases v with
      | vstr s => simp [cellNeg, hc]
      | vdate t => simp [cellNeg, hc]
      | vnum q =>
        simp only [cellGE0, hc, decide_eq_true_eq] at hge
        simp only [cellNeg, hc, decide_eq_false_iff_not]
        exact not_lt.mpr hge

theorem foldl_negStep_schema (L : List ℕ) :
    ∀ g : DataFrame, (L.foldl negStep g).schema = g.schema := by
  induction L with
  | nil => intro g; rfl
  | cons k L ih =>
    intro g
    rw [List.foldl_cons, ih (negStep g k), negStep_schema]

theorem foldl_negStep_sublist (L : List ℕ) :
    ∀ g : DataFrame, List.Sublist (L.foldl negStep g).rows g.rows := by
  induction L with
  | nil => intro g; exact List.Sublist.refl _
  | cons k L ih =>
    intro g
    rw [List.foldl_cons]
    exact (ih (negStep g k)).trans (negStep_sublist g k)

theorem foldl_negStep_no_neg (L : List ℕ) :
    ∀ (g : DataFrame), ∀ j ∈ L, ∀ r ∈ (L.foldl negStep g).rows,
      cellNeg r j = false := by
  induction L with
  | nil => intro g j hj; exact absurd hj (by simp)
  | cons k L ih =>
    intro g j hj r hr
    rw [List.foldl_cons] at hr
    rcases List.mem_cons.mp hj with hjk | hjL
    · subst hjk
      exact negStep_no_neg g j r
        ((foldl_negStep_sublist L (negStep g j)).subset hr)
    · exact ih (negStep g k) j hjL r hr

theorem foldl_negStep_dropped (L : List ℕ) :
    ∀ (g : DataFrame), ∀ r ∈ g.rows, r ∉ (L.foldl negStep g).rows →
      ∃ j ∈ L, cellGE0 r j = false := by
  induction L with
  | nil => intro g r hr hout; exact absurd hr hout
  | cons k L ih =>
    intro g r hr hout
    rw [List.foldl_cons] at hout
    by_cases hmem : r ∈ (negStep g k).rows
    · rcases ih (negStep g k) r hmem hout with ⟨j, hj, hge⟩
      exact ⟨j, List.mem_cons_of_mem _ hj, hge⟩
    · refine ⟨k, List.mem_cons_self _ _, ?_⟩
      unfold negStep at hmem
      by_cases h : (g.rows.filter (fun r => cellNeg r k)).length = 0
      · rw [if_pos h] at hmem; exact absurd hr hmem
      · rw [if_neg h] at hmem
        simp only [List.mem_filter] at hmem
        cases hc : cellGE0 r k with
        | false => rfl
        | true => exact absurd ⟨hr, hc⟩ hmem

theorem foldl_negStep_retained (L : List ℕ) :
    ∀ (g : DataFrame), ∀ r ∈ g.rows, (∀ j ∈ L, cellGE0 r j = true) →
      r ∈ (L.foldl negStep g).rows := by
  induction L with
  | nil => intro g r hr _; exact hr
  | cons k L ih =>
    intro g r hr hge
    rw [List.foldl_cons]
    have hmem : r ∈ (negStep g k).rows := by
      unfold negStep
      by_cases h : (g.rows.filter (fun r => cellNeg r k)).length = 0
      · rw [if_pos h]; exact hr
      · rw [if_neg h]
        simp only [List.mem_filter]
        exact ⟨hr, hge k (List.mem_cons_self _ _)⟩
    exact ih (negStep g k) r hmem (fun j hj => hge j (List.mem_cons_of_mem _ hj))

theorem cellGE0_eq_not_cellNeg {r : Row} {j : ℕ}
    (h : cellNeg r j = true ∨ cellGE0 r j = true) :
    cellGE0 r j = !(cellNeg r j) := by
  cases hc : cellAt r j with
  | none => simp [cellNeg, cellGE0, hc] at h
  | some v =>
    cases v with
    | vstr s => simp [cellNeg, cellGE0, hc] at h
    | vdate t => simp [cellNeg, cellGE0, hc] at h
    | vnum q =>
      simp only [cellNeg, cellGE0, hc]
      by_cases hq : q < 0
      · have h1 : decide (q < 0) = true := decide_eq_true hq
        have h2 : decide (0 ≤ q) = false := decide_eq_false (not_le.mpr hq)
        rw [h1, h2]; rfl
      · have h1 : decide (q < 0) = false := decide_eq_false hq
        have h2 : decide (0 ≤ q) = true := decide_eq_true (not_lt.mp hq)
        rw [h1, h2]; rfl

theorem foldl_negStep_exact (L : List ℕ) :
    ∀ (g : DataFrame),
      (∀ r ∈ g.rows, ∀ j ∈ L, cellNeg r j = true ∨ cellGE0 r j = true) →
      (L.foldl negStep g).rows =
        g.rows.filter (fun r => L.all (fun j => !(cellNeg r j))) := by
  induction L with
  | nil =>
    intro g _
    simp
  | cons k L ih =>
    intro g h
    rw [List.foldl_cons]
    have hsubset : ∀ r ∈ (negStep g k).rows, r ∈ g.rows :=
      fun r hr => (negStep_sublist g k).subset hr
    have hIH := ih (negStep g k) (fun r hr j hj =>
      h r (hsubset r hr) j (List.mem_cons_of_mem _ hj))
    rw [hIH]
    unfold negStep
    by_cases h0 : (g.rows.filter (fun r => cellNeg r k)).length = 0
    · rw [if_pos h0]
      have hnone : ∀ r ∈ g.rows, cellNeg r k = false := by
        intro r hr
        have hnil := List.length_eq_zero.mp h0
        rw [List.filter_eq_nil_iff] at hnil
        have := hnil r hr
        cases hc : cellNeg r k with
        | false => rfl
        | true => exact absurd hc this
      refine List.filter_congr ?_
      intro r hr
      rw [List.all_cons, hnone r hr]
      simp
    · rw [if_neg h0]
      have hge : ∀ r ∈ g.rows, cellGE0 r k = !(cellNeg r k) := by
        intro r hr
        exact cellGE0_eq_not_cellNeg (h r hr k (List.mem_cons_self _ _))
      rw [List.filter_congr hge, List.filter_filter]
      refine List.filter_congr ?_
      intro r hr
      rw [List.all_cons, Bool.and_comm]

/-- Claim C6 counterexample: on a dataset whose single monetary column
holds a negative value and a missing value, validation drops both rows,
not exactly the rows holding a negative value as the claim states. -/
theorem validate_data_missing_drop_counterexample :
    (validate_data negMissingDf).rows ≠
      negMissingDf.rows.filter (fun r =>
        (monetaryCols negMissingDf).all (fun j => !(cellNeg r j))) := by
  decide

/-- Claim C6 amended: validation removes rows only through the
non-negativity filter over the monetary numeric columns (names containing
price, amount or quantity): the surviving rows are a subsequence of the
input, no negative value remains in any monetary column, every dropped
row fails the df[col] >= 0 test (negative or missing value) in some
monetary column, every row passing that test in every monetary column is
retained regardless of any outlier statistic, and when every monetary cell
is a present numeric value the dropped rows are exactly the rows holding a
negative value; the outlier pass only counts and removes nothing. -/
theorem validate_data_spec (df : DataFrame) :
    (validate_data df).schema = df.schema ∧
    List.Sublist (validate_data df).rows df.rows ∧
    (∀ j ∈ monetaryCols df, ∀ r ∈ (validate_data df).rows, cellNeg r j = false) ∧
    (∀ r ∈ df.rows, r ∉ (validate_data df).rows →
      ∃ j ∈ monetaryCols df, cellGE0 r j = false) ∧
    (∀ r ∈ df.rows, (∀ j ∈ monetaryCols df, cellGE0 r j = true) →
      r ∈ (validate_data df).rows) ∧
    ((∀ r ∈ df.rows, ∀ j ∈ monetaryCols df,
        cellNeg r j = true ∨ cellGE0 r j = true) →
      (validate_data df).rows =
        df.rows.filter (fun r =>
          (monetaryCols df).all (fun j => !(cellNeg r j)))) := by
  refine ⟨?_, ?_, ?_, ?_, ?_, ?_⟩
  · exact foldl_negStep_schema (monetaryCols df) df
  · exact foldl_negStep_sublist (monetaryCols df) df
  · intro j hj r hr
    exact foldl_negStep_no_neg (monetaryCols df) df j hj r hr
  · intro r hr hout
    exact foldl_negStep_dropped (monetaryCols df) df r hr hout
  · intro r hr hge
    exact foldl_negStep_retained (monetaryCols df) df r hr hge
  · intro h
    exact foldl_negStep_exact (monetaryCols df) df h

/-- Claim C6 witness: on a fully populated monetary column the dropped rows
are exactly the rows holding a negative value. -/
theorem validate_data_spec_witness :
    (validate_data negDemoDf).rows =
      negDemoDf.rows.filter (fun r =>
        (monetaryCols negDemoDf).all (fun j => !(cellNeg r j))) := by
  exact (validate_data_spec negDemoDf).2.2.2.2.2 (by decide)

/-! ### Date conversion -/

theorem map_id_of_mem {α : Type} {f : α → α} :
    ∀ {l : List α}, (∀ a ∈ l, f a = a) → l.map f = l := by
  intro l
  induction l with
  | nil => intro _; rfl
  | cons x xs ih =>
    intro h
    rw [List.map_cons, h x (List.mem_cons_self _ _),
      ih (fun a ha => h a (List.mem_cons_of_mem _ ha))]

theorem set_self_of_getElem? {α : Type} {l : List α} {j : ℕ} {a : α}
    (h : l[j]? = some a) : l.set j a = l := by
  apply List.ext_getElem?
  intro i
  by_cases hij : j = i
  · subst hij
    by_cases hj : j < l.length
    · rw [List.getElem?_set_self hj, h]
    · rw [List.set_eq_of_length_le (Nat.le_of_not_lt hj)]
  · rw [List.getElem?_set_ne hij]

theorem findIdx?_offset_spec {α : Type} (p : α → Bool) :
    ∀ (l : List α) (i j : ℕ), List.findIdx? p l i = some j →
      i ≤ j ∧ j - i < l.length ∧
        ∃ a, l[j - i]? = some a ∧ p a = true := by
  intro l
  induction l with
  | nil => intro i j h; rw [List.findIdx?_nil] at h; exact absurd h (by simp)
  | cons x xs ih =>
    intro i j h
    rw [List.findIdx?_cons] at h
    by_cases hp : p x = true
    · rw [if_pos hp] at h
      have hij : i = j := by
        have := h
        simp only [Option.some.injEq] at this
        exact this
      subst hij
      exact ⟨Nat.le_refl i, by simp, x, by simp, hp⟩
    · rw [if_neg hp] at h
      rcases ih (i + 1) j h with ⟨h1, h2, a, h3, h4⟩
      refine ⟨by omega, by simp; omega, a, ?_, h4⟩
      have hji : j - i = (j - (i + 1)) + 1 := by omega
      rw [hji, List.getElem?_cons_succ]
      exact h3

theorem findIdx?_some_spec {α : Type} (p : α → Bool) (l : List α) (j : ℕ)
    (h : List.findIdx? p l = some j) :
    j < l.length ∧ ∃ a, l[j]? = some a ∧ p a = true := by
  have := findIdx?_offset_spec p l 0 j h
  simpa using this

theorem findIdx?_congr_of_map_fst :
    ∀ (l₁ l₂ : List (String × DType)),
      l₁.map Prod.fst = l₂.map Prod.fst → ∀ (n : String) (i : ℕ),
        List.findIdx? (fun c => decide (c.1 = n)) l₁ i =
          List.findIdx? (fun c => decide (c.1 = n)) l₂ i := by
  intro l₁
  induction l₁ with
  | nil =>
    intro l₂ h n i
    cases l₂ with
    | nil => rfl
    | cons b bs => simp at h
  | cons a as ih =>
    intro l₂ h n i
    cases l₂ with
    | nil => simp at h
    | cons b bs =>
      simp only [List.map_cons, List.cons.injEq] at h
      rw [List.findIdx?_cons, List.findIdx?_cons, h.1, ih bs h.2 n (i + 1)]

theorem convertCol_not_found {parse : Val → Option Val} {df : DataFrame}
    {n : String}
    (h : df.schema.findIdx? (fun c => decide (c.1 = n)) = none) :
    convertCol parse df n = df := by
  unfold convertCol
  rw [h]

theorem convertCol_found {parse : Val → Option Val} {df : DataFrame}
    {n : String} {j : ℕ}
    (h : df.schema.findIdx? (fun c => decide (c.1 = n)) = some j) :
    convertCol parse df n =
      { schema := df.schema.set j (n, DType.date),
        rows := df.rows.map (fun r => mapCellAt r j (fun c => c.bind parse)) } := by
  unfold convertCol
  rw [h]

theorem convertCol_schema_names (parse : Val → Option Val) (df : DataFrame)
    (n : String) :
    (convertCol parse df n).schema.map Prod.fst = df.schema.map Prod.fst := by
  cases hf : df.schema.findIdx? (fun c => decide (c.1 = n)) with
  | none => rw [convertCol_not_found hf]
  | some j =>
    rw [convertCol_found hf]
    simp only
    rw [List.map_set]
    rcases findIdx?_some_spec _ _ _ hf with ⟨hj, a, ha, hpa⟩
    have hn : a.1 = n := of_decide_eq_true hpa
    apply set_self_of_getElem?
    rw [List.getElem?_map, ha]
    simp [hn]

theorem convertCol_rows_length (parse : Val → Option Val) (df : DataFrame)
    (n : String) :
    (convertCol parse df n).rows.length = df.rows.length := by
  cases hf : df.schema.findIdx? (fun c => decide (c.1 = n)) with
  | none => rw [convertCol_not_found hf]
  | some j =>
    rw [convertCol_found hf]
    simp [List.length_map]

theorem bind_parse_stable {parse : Val → Option Val}
    (hstab : ∀ t, parse (Val.vdate t) = some (Val.vdate t))
    (hrange : ∀ v w, parse v = some w → ∃ t, w = Val.vdate t) (c : Cell) :
    (c.bind parse).bind parse = c.bind parse := by
  cases c with
  | none => rfl
  | some v =>
    show (parse v).bind parse = parse v
    cases hp : parse v with
    | none => rfl
    | some w =>
      rcases hrange v w hp with ⟨t, ht⟩
      subst ht
      show parse (Val.vdate t) = some (Val.vdate t)
      exact hstab t

theorem mapCellAt_getD_self (r : Row) (j : ℕ) (f : Cell → Cell) :
    (mapCellAt r j f).getD j none = f (r.getD j none) ∨
      ((mapCellAt r j f) = r ∧ r.getD j none = none) := by
  unfold mapCellAt
  by_cases hj : j < r.length
  · left
    rw [List.getD_eq_getElem?_getD, List.getElem?_set_self hj]
    rfl
  · right
    have hle := Nat.le_of_not_lt hj
    exact ⟨List.set_eq_of_length_le hle, List.getD_eq_default r none hle⟩

theorem mapCellAt_getD_ne (r : Row) (j k : ℕ) (f : Cell → Cell) (h : j ≠ k) :
    (mapCellAt r j f).getD k none = r.getD k none := by
  unfold mapCellAt
  rw [List.getD_eq_getElem?_getD, List.getElem?_set_ne h,
    ← List.getD_eq_getElem?_getD]

theorem convertCol_establishes_fixed {parse : Val → Option Val}
    (hstab : ∀ t, parse (Val.vdate t) = some (Val.vdate t))
    (hrange : ∀ v w, parse v = some w → ∃ t, w = Val.vdate t)
    (g : DataFrame) (m : String) :
    ConvFixed parse (convertCol parse g m) m := by
  cases hf : g.schema.findIdx? (fun c => decide (c.1 = m)) with
  | none =>
    rw [convertCol_not_found hf]
    intro j hj
    rw [hf] at hj
    exact absurd hj (by simp)
  | some j0 =>
    rw [convertCol_found hf]
    intro j hj
    have hnames : (g.schema.set j0 (m, DType.date)).map Prod.fst =
        g.schema.map Prod.fst := by
      have := convertCol_schema_names parse g m
      rw [convertCol_found hf] at this
      exact this
    have hsame : List.findIdx? (fun c => decide (c.1 = m))
        (g.schema.set j0 (m, DType.date)) = some j0 := by
      rw [findIdx?_congr_of_map_fst _ g.schema hnames m 0]
      exact hf
    simp only at hj
    have hjj : j = j0 := by
      rw [hsame] at hj
      simp only [Option.some.injEq] at hj
      omega
    subst hjj
    have hjlen : j < g.schema.length := (findIdx?_some_spec _ _ _ hf).1
    constructor
    · simp only
      exact List.getElem?_set_self hjlen
    · simp only
      intro r hr
      rw [List.mem_map] at hr
      rcases hr with ⟨r0, hr0, hr0e⟩
      subst hr0e
      rcases mapCellAt_getD_self r0 j (fun c => c.bind parse) with hc | ⟨hc, hn⟩
      · rw [hc]
        exact bind_parse_stable hstab hrange _
      · rw [hc, hn]
        rfl

theorem convertCol_preserves_fixed {parse : Val → Option Val}
    (g : DataFrame) (n m : String) (hfix : ConvFixed parse g n) :
    ConvFixed parse (convertCol parse g m) n := by
  cases hf : g.schema.findIdx? (fun c => decide (c.1 = m)) with
  | none => rw [convertCol_not_found hf]; exact hfix
  | some jm =>
    intro j hj
    have hnames := convertCol_schema_names parse g m
    have hsame : g.schema.findIdx? (fun c => decide (c.1 = n)) = some j := by
      rw [← findIdx?_congr_of_map_fst _ _ hnames n 0]
      exact hj
    rcases hfix j hsame with ⟨hsch, hrows⟩
    rw [convertCol_found hf]
    by_cases hjjm : j = jm
    · subst hjjm
      rcases findIdx?_some_spec _ _ _ hf with ⟨hjlen, a, ha, hpa⟩
      have hm : a.1 = m := of_decide_eq_true hpa
      have hae : some a = some ((n, DType.date) : String × DType) := by
        rw [← ha, hsch]
      have hnm : n = m := by
        have ha2 : a = (n, DType.date) := by
          simpa using hae
        rw [ha2] at hm
        exact hm
      subst hnm
      constructor
      · simp only
        exact List.getElem?_set_self hjlen
      · simp only
        intro r hr
        rw [List.mem_map] at hr
        rcases hr with ⟨r0, hr0, hr0e⟩
        subst hr0e
        have hfix0 := hrows r0 hr0
        have hrw : mapCellAt r0 j (fun c => c.bind parse) = r0 := by
          unfold mapCellAt
          show r0.set j ((r0.getD j none).bind parse) = r0
          rw [hfix0]
          by_cases hjr : j < r0.length
          · apply set_self_of_getElem?
            rw [List.getD_eq_getElem?_getD] at hfix0 ⊢
            cases hg : r0[j]? with
            | none =>
              have := List.getElem?_eq_none_iff.mp hg
              omega
            | some c => simp
          · exact List.set_eq_of_length_le (Nat.le_of_not_lt hjr)
        rw [hrw]
        exact hrows r0 hr0
    · constructor
      · simp only
        rw [List.getElem?_set_ne (fun hc => hjjm hc.symm)]
        exact hsch
      · simp only
        intro r hr
        rw [List.mem_map] at hr
        rcases hr with ⟨r0, hr0, hr0e⟩
        subst hr0e
        rw [mapCellAt_getD_ne r0 jm j _ (fun hc => hjjm hc.symm)]
        exact hrows r0 hr0

theorem convert_fold_invariant {parse : Val → Option Val}
    (hstab : ∀ t, parse (Val.vdate t) = some (Val.vdate t))
    (hrange : ∀ v w, parse v = some w → ∃ t, w = Val.vdate t) :
    ∀ (cols : List String) (g : DataFrame),
      ((convert_date_columns parse g cols).schema.map Prod.fst =
         g.schema.map Prod.fst ∧
       (convert_date_columns parse g cols).rows.length = g.rows.length ∧
       (∀ n, ConvFixed parse g n →
          ConvFixed parse (convert_date_columns parse g cols) n) ∧
       (∀ n ∈ cols, ConvFixed parse (convert_date_columns parse g cols) n)) := by
  intro cols
  induction cols with
  | nil =>
    intro g
    exact ⟨rfl, rfl, fun n h => h, fun n hn => absurd hn (by simp)⟩
  | cons m L ih =>
    intro g
    have hstep : convert_date_columns parse g (m :: L) =
        convert_date_columns parse (convertCol parse g m) L := rfl
    rcases ih (convertCol parse g m) with ⟨ha, hb, hc, hd⟩
    refine ⟨?_, ?_, ?_, ?_⟩
    · rw [hstep, ha, convertCol_schema_names]
    · rw [hstep, hb, convertCol_rows_length]
    · intro n hn
      rw [hstep]
      exact hc n (convertCol_preserves_fixed g n m hn)
    · intro n hn
      rw [hstep]
      rcases List.mem_cons.mp hn with hnm | hnL
      · subst hnm
        exact hc n (convertCol_establishes_fixed hstab hrange g n)
      · exact hd n hnL

theorem convert_fold_fixed {parse : Val → Option Val} :
    ∀ (cols : List String) (g : DataFrame),
      (∀ n ∈ cols, ConvFixed parse g n) →
      convert_date_columns parse g cols = g := by
  intro cols
  induction cols with
  | nil => intro g _; rfl
  | cons m L ih =>
    intro g h
    have hfixed : convertCol parse g m = g := by
      cases hf : g.schema.findIdx? (fun c => decide (c.1 = m)) with
      | none => exact convertCol_not_found hf
      | some j =>
        rcases h m (List.mem_cons_self _ _) j hf with ⟨hsch, hrows⟩
        rw [convertCol_found hf]
        have hs : g.schema.set j (m, DType.date) = g.schema :=
          set_self_of_getElem? hsch
        have hr : g.rows.map (fun r => mapCellAt r j (fun c => c.bind parse)) =
            g.rows := by
          apply map_id_of_mem
          intro r hr
          unfold mapCellAt
          show r.set j ((r.getD j none).bind parse) = r
          rw [hrows r hr]
          by_cases hjr : j < r.length
          · apply set_self_of_getElem?
            rw [List.getD_eq_getElem?_getD]
            cases hg : r[j]? with
            | none =>
              have := List.getElem?_eq_none_iff.mp hg
              omega
            | some c => simp
          · exact List.set_eq_of_length_le (Nat.le_of_not_lt hjr)
        rw [hs, hr]
    show convert_date_columns parse (convertCol parse g m) L = g
    rw [hfixed]
    exact ih g (fun n hn => h n (List.mem_cons_of_mem _ hn))

theorem convert_fold_untouched {parse : Val → Option Val} :
    ∀ (cols : List String) (g : DataFrame) (j : ℕ),
      (∀ n ∈ cols, g.schema.findIdx? (fun c => decide (c.1 = n)) ≠ some j) →
      ((convert_date_columns parse g cols).schema[j]? = g.schema[j]? ∧
       ∀ i : ℕ,
         ((convert_date_columns parse g cols).rows.getD i []).getD j none =
           (g.rows.getD i []).getD j none) := by
  intro cols
  induction cols with
  | nil => intro g j _; exact ⟨rfl, fun i => rfl⟩
  | cons m L ih =>
    intro g j h
    have hstep : convert_date_columns parse g (m :: L) =
        convert_date_columns parse (convertCol parse g m) L := rfl
    have hnames := convertCol_schema_names parse g m
    have hL : ∀ n ∈ L, (convertCol parse g m).schema.findIdx?
        (fun c => decide (c.1 = n)) ≠ some j := by
      intro n hn
      rw [findIdx?_congr_of_map_fst _ g.schema hnames n 0]
      exact h n (List.mem_cons_of_mem _ hn)
    rcases ih (convertCol parse g m) j hL with ⟨ha, hb⟩
    have hstep_sch : (convertCol parse g m).schema[j]? = g.schema[j]? := by
      cases hf : g.schema.findIdx? (fun c => decide (c.1 = m)) with
      | none => rw [convertCol_not_found hf]
      | some jm =>
        have hjm : jm ≠ j := by
          intro hc
          exact h m (List.mem_cons_self _ _) (hc ▸ hf)
        rw [convertCol_found hf]
        simp only
        exact List.getElem?_set_ne hjm
    have hstep_rows : ∀ i : ℕ,
        ((convertCol parse g m).rows.getD i []).getD j none =
          (g.rows.getD i []).getD j none := by
      intro i
      cases hf : g.schema.findIdx? (fun c => decide (c.1 = m)) with
      | none => rw [convertCol_not_found hf]
      | some jm =>
        have hjm : jm ≠ j := by
          intro hc
          exact h m (List.mem_cons_self _ _) (hc ▸ hf)
        rw [convertCol_found hf]
        simp only [List.getD_eq_getElem?_getD, List.getElem?_map]
        cases hg : g.rows[i]? with
        | none => rfl
        | some r =>
          simp only [Option.map_some', Option.getD_some]
          rw [← List.getD_eq_getElem?_getD, ← List.getD_eq_getElem?_getD]
          exact mapCellAt_getD_ne r jm j _ hjm
    rw [hstep]
    exact ⟨ha.trans hstep_sch, fun i => (hb i).trans (hstep_rows i)⟩

/-- Claim C7: date coercion never fails outright and degrades per value:
the row count is unchanged; listed names absent from the dataset are
skipped (all absent means the dataset comes back untouched); a listed
present column is re-parsed cellwise, and a cell whose value fails to
parse becomes the explicit missing marker, never a default date; columns
not matched by any listed name keep their dtype entry and every cell;
and parsing is stable under repetition: re-running the conversion on its
own output changes nothing, for any parser that fixes already-parsed
timestamps (pd.to_datetime does). -/
theorem convert_date_columns_spec (parse : Val → Option Val) (df : DataFrame)
    (dateCols : List String)
    (hstab : ∀ t, parse (Val.vdate t) = some (Val.vdate t))
    (hrange : ∀ v w, parse v = some w → ∃ t, w = Val.vdate t) :
    (convert_date_columns parse df dateCols).rows.length = df.rows.length ∧
    ((∀ n ∈ dateCols, df.schema.findIdx? (fun c => decide (c.1 = n)) = none) →
      convert_date_columns parse df dateCols = df) ∧
    (∀ (n : String) (j : ℕ),
      df.schema.findIdx? (fun c => decide (c.1 = n)) = some j →
      (convertCol parse df n).rows =
        df.rows.map (fun r => mapCellAt r j (fun c => c.bind parse))) ∧
    (∀ (r : Row) (j : ℕ), j < r.length → ∀ v, cellAt r j = some v →
      parse v = none →
      cellAt (mapCellAt r j (fun c => c.bind parse)) j = none) ∧
    (∀ j : ℕ, (∀ n ∈ dateCols,
        df.schema.findIdx? (fun c => decide (c.1 = n)) ≠ some j) →
      ((convert_date_columns parse df dateCols).schema[j]? = df.schema[j]? ∧
       ∀ i : ℕ,
         ((convert_date_columns parse df dateCols).rows.getD i []).getD j none =
           (df.rows.getD i []).getD j none)) ∧
    convert_date_columns parse (convert_date_columns parse df dateCols)
        dateCols =
      convert_date_columns parse df dateCols := by
  refine ⟨?_, ?_, ?_, ?_, ?_, ?_⟩
  · exact (convert_fold_invariant hstab hrange dateCols df).2.1
  · intro h
    apply convert_fold_fixed
    intro n hn j hj
    exact absurd hj (by rw [h n hn]; simp)
  · intro n j hj
    rw [convertCol_found hj]
  · intro r j hj v hv hp
    rcases mapCellAt_getD_self r j (fun c => c.bind parse) with hc | ⟨_, hn⟩
    · show (mapCellAt r j fun c => c.bind parse).getD j none = none
      rw [hc]
      show (r.getD j none).bind parse = none
      show (cellAt r j).bind parse = none
      rw [hv]
      exact hp
    · exfalso
      rw [show r.getD j none = cellAt r j from rfl, hv] at hn
      exact absurd hn (by simp)
  · intro j hj
    exact convert_fold_untouched dateCols df j hj
  · apply convert_fold_fixed
    intro n hn
    exact (convert_fold_invariant hstab hrange dateCols df).2.2.2 n hn

theorem parseDate_stable : ∀ t, parseDate (Val.vdate t) = some (Val.vdate t) :=
  fun _ => rfl

theorem parseDate_range :
    ∀ v w, parseDate v = some w → ∃ t, w = Val.vdate t := by
  intro v w h
  cases v with
  | vdate t =>
    refine ⟨t, ?_⟩
    have : some (Val.vdate t) = some w := h
    simpa using this.symm
  | vnum q => exact absurd h (by simp [parseDate])
  | vstr s =>
    have h2 : Option.map Val.vdate (parseIsoDate s) = some w := h
    cases hp : parseIsoDate s with
    | none => rw [hp] at h2; exact absurd h2 (by simp)
    | some t =>
      rw [hp] at h2
      simp only [Option.map_some', Option.some.injEq] at h2
      exact ⟨t, h2.symm⟩

/-- Claim C7 witness: with the concrete ISO parser on a dataset holding a
parseable value, an unparseable value and a missing value, the conversion
is idempotent, and the converted column holds the parsed timestamp and two
missing markers. -/
theorem convert_date_columns_spec_witness :
    convert_date_columns parseDate
        (convert_date_columns parseDate dateDemoDf ["order_purchase_timestamp"])
        ["order_purchase_timestamp"] =
      convert_date_columns parseDate dateDemoDf ["order_purchase_timestamp"] ∧
    (convert_date_columns parseDate dateDemoDf
        ["order_purchase_timestamp"]).rows =
      [[some (Val.vdate (17296 * 86400))], [none], [none]] := by
  have h := convert_date_columns_spec parseDate dateDemoDf
    ["order_purchase_timestamp"] parseDate_stable parseDate_range
  exact ⟨h.2.2.2.2.2, by decide⟩

/-! ### Text standardization -/

theorem getD_map_lt {α β : Type} (f : α → β) (l : List α) (i : ℕ) (d : α)
    (d2 : β) (h : i < l.length) : (l.map f).getD i d2 = f (l.getD i d) := by
  rw [List.getD_eq_getElem?_getD, List.getElem?_map, List.getD_eq_getElem?_getD]
  cases hg : l[i]? with
  | none =>
    have := List.getElem?_eq_none_iff.mp hg
    omega
  | some a => rfl

theorem stdCol_not_found {df : DataFrame} {n : String}
    (hf : df.schema.findIdx? (fun c => decide (c.1 = n)) = none) :
    stdCol df n = df := by
  unfold stdCol
  rw [hf]

theorem stdCol_found {df : DataFrame} {n : String} {j : ℕ}
    (hf : df.schema.findIdx? (fun c => decide (c.1 = n)) = some j) :
    stdCol df n = stdColAt df j := by
  unfold stdCol
  rw [hf]

theorem stdColAt_obj {df : DataFrame} {j : ℕ} (hd : dtypeAt df j = DType.obj) :
    stdColAt df j = { df with rows := df.rows.map (fun r => stdRow r j) } := by
  unfold stdColAt
  rw [if_pos hd]

theorem stdColAt_not_obj {df : DataFrame} {j : ℕ}
    (hd : dtypeAt df j ≠ DType.obj) : stdColAt df j = df := by
  unfold stdColAt
  rw [if_neg hd]

theorem stdColAt_schema (df : DataFrame) (j : ℕ) :
    (stdColAt df j).schema = df.schema := by
  by_cases hd : dtypeAt df j = DType.obj
  · rw [stdColAt_obj hd]
  · rw [stdColAt_not_obj hd]

theorem stdCol_baseStd {df g : DataFrame} (n : String) (h : baseStd df g) :
    baseStd df (stdCol g n) := by
  rcases h with ⟨hs, hl, hr⟩
  cases hf : g.schema.findIdx? (fun c => decide (c.1 = n)) with
  | none => rw [stdCol_not_found hf]; exact ⟨hs, hl, hr⟩
  | some j =>
    rw [stdCol_found hf]
    by_cases hd : dtypeAt g j = DType.obj
    · rw [stdColAt_obj hd]
      refine ⟨hs, by simpa using hl, ?_⟩
      intro i hi
      have hig : i < g.rows.length := by omega
      rw [getD_map_lt _ _ i [] [] hig]
      unfold stdRow
      rw [List.length_set]
      exact hr i hi
    · rw [stdColAt_not_obj hd]
      exact ⟨hs, hl, hr⟩

theorem stdCol_touch {df g : DataFrame} {n : String} {j : ℕ}
    (hbase : baseStd df g)
    (hlen : ∀ r ∈ df.rows, df.schema.length ≤ r.length)
    (hj : j < df.schema.length)
    (hf : g.schema.findIdx? (fun c => decide (c.1 = n)) = some j)
    (hd : dtypeAt g j = DType.obj)
    (hstate : colUntouched df g j ∨ colStandardized df g j) :
    colStandardized df (stdCol g n) j := by
  rcases hbase with ⟨hs, hl, hr⟩
  have hrowlen : ∀ i, i < df.rows.length → j < (g.rows.getD i []).length := by
    intro i hi
    rw [hr i hi]
    have hmem : df.rows.getD i [] ∈ df.rows := by
      rw [List.getD_eq_getElem _ _ (by omega : i < df.rows.length)]
      exact List.getElem_mem _
    have := hlen _ hmem
    omega
  intro i hi
  have hig : i < g.rows.length := by omega
  have hcell : ((stdCol g n).rows.getD i []).getD j none =
      some (Val.vstr (trimStr (lowerStr
        (pyStr ((g.rows.getD i []).getD j none))))) := by
    rw [stdCol_found hf, stdColAt_obj hd]
    simp only
    rw [getD_map_lt _ _ i [] [] hig]
    unfold stdRow
    rw [List.getD_eq_getElem?_getD, List.getElem?_set_self (hrowlen i hi)]
    rfl
  rw [hcell]
  constructor
  · exact ⟨_, rfl⟩
  · intro hmiss
    rcases hstate with hA | hB
    · rw [hA i hi, hmiss]
      rfl
    · rcases hB i hi with ⟨⟨s, hsv⟩, hnan⟩
      rw [hnan hmiss]
      rfl

theorem stdCol_state {df g : DataFrame} (n : String) (j : ℕ)
    (hbase : baseStd df g)
    (hlen : ∀ r ∈ df.rows, df.schema.length ≤ r.length)
    (hstate : colUntouched df g j ∨ colStandardized df g j) :
    colUntouched df (stdCol g n) j ∨ colStandardized df (stdCol g n) j := by
  cases hf : g.schema.findIdx? (fun c => decide (c.1 = n)) with
  | none =>
    rw [stdCol_not_found hf]
    exact hstate
  | some j0 =>
    by_cases hd : dtypeAt g j0 = DType.obj
    · by_cases hjj : j0 = j
      · subst hjj
        have hjlt : j0 < df.schema.length := by
          have := (findIdx?_some_spec _ _ _ hf).1
          rw [hbase.1] at this
          exact this
        exact Or.inr (stdCol_touch hbase hlen hjlt hf hd hstate)
      · have hcellne : ∀ i, i < df.rows.length →
            ((stdCol g n).rows.getD i []).getD j none =
              (g.rows.getD i []).getD j none := by
          intro i hi
          have hig : i < g.rows.length := by
            have := hbase.2.1; omega
          rw [stdCol_found hf, stdColAt_obj hd]
          simp only
          rw [getD_map_lt _ _ i [] [] hig]
          unfold stdRow
          rw [List.getD_eq_getElem?_getD, List.getElem?_set_ne hjj,
            ← List.getD_eq_getElem?_getD]
        rcases hstate with hA | hB
        · refine Or.inl ?_
          intro i hi
          rw [hcellne i hi]
          exact hA i hi
        · refine Or.inr ?_
          intro i hi
          rcases hB i hi with ⟨⟨s, hsv⟩, hnan⟩
          rw [hcellne i hi]
          exact ⟨⟨s, hsv⟩, hnan⟩
    · rw [stdCol_found hf, stdColAt_not_obj hd]
      exact hstate

theorem stdCol_std_pres {df g : DataFrame} (n : String) (j : ℕ)
    (hbase : baseStd df g)
    (hlen : ∀ r ∈ df.rows, df.schema.length ≤ r.length)
    (hg : colStandardized df g j) :
    colStandardized df (stdCol g n) j := by
  cases hf : g.schema.findIdx? (fun c => decide (c.1 = n)) with
  | none =>
    rw [stdCol_not_found hf]
    exact hg
  | some j0 =>
    by_cases hd : dtypeAt g j0 = DType.obj
    · by_cases hjj : j0 = j
      · subst hjj
        have hjlt : j0 < df.schema.length := by
          have := (findIdx?_some_spec _ _ _ hf).1
          rw [hbase.1] at this
          exact this
        exact stdCol_touch hbase hlen hjlt hf hd (Or.inr hg)
      · intro i hi
        have hig : i < g.rows.length := by
          have := hbase.2.1; omega
        have hcellne : ((stdCol g n).rows.getD i []).getD j none =
            (g.rows.getD i []).getD j none := by
          rw [stdCol_found hf, stdColAt_obj hd]
          simp only
          rw [getD_map_lt _ _ i [] [] hig]
          unfold stdRow
          rw [List.getD_eq_getElem?_getD, List.getElem?_set_ne hjj,
            ← List.getD_eq_getElem?_getD]
        rcases hg i hi with ⟨⟨s, hsv⟩, hnan⟩
        rw [hcellne]
        exact ⟨⟨s, hsv⟩, hnan⟩
    · rw [stdCol_found hf, stdColAt_not_obj hd]
      exact hg

theorem std_fold_invariant (df : DataFrame) (j : ℕ)
    (hlen : ∀ r ∈ df.rows, df.schema.length ≤ r.length) :
    ∀ (cols : List String) (g : DataFrame),
      baseStd df g →
      (colUntouched df g j ∨ colStandardized df g j) →
      (baseStd df (cols.foldl stdCol g) ∧
       (colUntouched df (cols.foldl stdCol g) j ∨
        colStandardized df (cols.foldl stdCol g) j) ∧
       (colStandardized df g j →
         colStandardized df (cols.foldl stdCol g) j) ∧
       ((∃ n ∈ cols, df.schema.findIdx? (fun c => decide (c.1 = n)) = some j ∧
          dtypeAt df j = DType.obj) →
         colStandardized df (cols.foldl stdCol g) j)) := by
  intro cols
  induction cols with
  | nil =>
    intro g hbase hstate
    refine ⟨hbase, hstate, fun h => h, ?_⟩
    intro h
    rcases h with ⟨n, hn, _⟩
    exact absurd hn (by simp)
  | cons m L ih =>
    intro g hbase hstate
    have hbase2 := stdCol_baseStd m hbase
    have hstate2 := stdCol_state m j hbase hlen hstate
    rcases ih (stdCol g m) hbase2 hstate2 with ⟨ha, hb, hc, hd⟩
    have hstd_pres : colStandardized df g j →
        colStandardized df (stdCol g m) j :=
      fun hg => stdCol_std_pres m j hbase hlen hg
    refine ⟨ha, hb, ?_, ?_⟩
    · intro hg
      exact hc (hstd_pres hg)
    · intro hex
      rcases hex with ⟨n, hn, hfind, hobj⟩
      rcases List.mem_cons.mp hn with hnm | hnL
      · subst hnm
        have hfind2 : g.schema.findIdx? (fun c => decide (c.1 = n)) = some j := by
          rw [hbase.1]; exact hfind
        have hobj2 : dtypeAt g j = DType.obj := by
          unfold dtypeAt at hobj ⊢
          rw [hbase.1]; exact hobj
        have hjlt : j < df.schema.length := (findIdx?_some_spec _ _ _ hfind).1
        exact hc (stdCol_touch hbase hlen hjlt hfind2 hobj2 hstate)
      · exact hd ⟨n, hnL, hfind, hobj⟩

/-- Claim C10: text standardization coerces every cell of a listed,
present, object-typed column to a string (astype(str)) before lower-casing
and trimming, so a still-missing value becomes the literal string "nan"
rather than staying a missing marker: afterwards the column holds only
string values, none of them a missing marker, and the formerly missing
cells hold exactly the sentinel string "nan". -/
theorem standardize_text_spec (df : DataFrame) (textCols : List String)
    (n : String) (j : ℕ)
    (hlen : ∀ r ∈ df.rows, df.schema.length ≤ r.length)
    (hn : n ∈ textCols)
    (hfind : df.schema.findIdx? (fun c => decide (c.1 = n)) = some j)
    (hobj : dtypeAt df j = DType.obj) :
    (standardize_text df textCols).schema = df.schema ∧
    (standardize_text df textCols).rows.length = df.rows.length ∧
    colStandardized df (standardize_text df textCols) j := by
  have hbase : baseStd df df := ⟨rfl, rfl, fun i _ => rfl⟩
  have hstate : colUntouched df df j ∨ colStandardized df df j :=
    Or.inl (fun i _ => rfl)
  have h := std_fold_invariant df j hlen textCols df hbase hstate
  exact ⟨h.1.1, h.1.2.1, h.2.2.2 ⟨n, hn, hfind, hobj⟩⟩

/-- Claim C10 witness: on a concrete object column holding a messy value
and a missing value, after standardization both cells are strings and the
missing one is the literal "nan". -/
theorem standardize_text_spec_witness :
    colStandardized textDemoDf
      (standardize_text textDemoDf ["order_status"]) 0 ∧
    (standardize_text textDemoDf ["order_status"]).rows =
      [[some (Val.vstr "delivered")], [some (Val.vstr "nan")]] := by
  have h := standardize_text_spec textDemoDf ["order_status"] "order_status" 0
    (by decide) (by decide) (by decide) (by decide)
  exact ⟨h.2.2, by decide⟩

/-! ### Fact assembly and key resolution -/

theorem merge1One_nil {orders : List OrderRow} {it : OrderItem}
    (hm : orders.filter (fun o => decide (o.order_id = it.order_id)) = []) :
    merge1One orders it =
      [{ item := it, ord := none, customer_key := none,
         product_key := none, order_date_key := none }] := by
  unfold merge1One
  rw [hm]

theorem merge1One_cons {orders : List OrderRow} {it : OrderItem}
    {o : OrderRow} {os : List OrderRow}
    (hm : orders.filter (fun x => decide (x.order_id = it.order_id)) = o :: os) :
    merge1One orders it =
      (o :: os).map (fun x => { item := it, ord := some x, customer_key := none,
                                product_key := none, order_date_key := none }) := by
  unfold merge1One
  rw [hm]

theorem addCustomerKeyOne_none {dim : List DimCustomer} {c : FactCand}
    (h : c.ord = none) : addCustomerKeyOne dim c = [c] := by
  unfold addCustomerKeyOne
  rw [h]

theorem addCustomerKeyOne_some_nil {dim : List DimCustomer} {c : FactCand}
    {o : OrderRow} (h : c.ord = some o)
    (hm : dim.filter (fun d => decide (d.customer_id = o.customer_id)) = []) :
    addCustomerKeyOne dim c = [c] := by
  unfold addCustomerKeyOne
  rw [h]
  show (match dim.filter (fun d => decide (d.customer_id = o.customer_id)) with
        | [] => [c]
        | ms => ms.map (fun (d : DimCustomer) =>
            { item := c.item, ord := some o,
              customer_key := some d.customer_key,
              product_key := c.product_key,
              order_date_key := c.order_date_key }))
      = [c]
  rw [hm]

theorem addCustomerKeyOne_some_cons {dim : List DimCustomer} {c : FactCand}
    {o : OrderRow} {d : DimCustomer} {ds : List DimCustomer}
    (h : c.ord = some o)
    (hm : dim.filter (fun x => decide (x.customer_id = o.customer_id)) = d :: ds) :
    addCustomerKeyOne dim c =
      (d :: ds).map (fun (x : DimCustomer) =>
        { item := c.item, ord := some o, customer_key := some x.customer_key,
          product_key := c.product_key,
          order_date_key := c.order_date_key }) := by
  unfold addCustomerKeyOne
  rw [h]
  show (match dim.filter (fun x => decide (x.customer_id = o.customer_id)) with
        | [] => [c]
        | ms => ms.map (fun (x : DimCustomer) =>
            { item := c.item, ord := some o,
              customer_key := some x.customer_key,
              product_key := c.product_key,
              order_date_key := c.order_date_key }))
      = _
  rw [hm]

theorem addProductKeyOne_nil {dim : List DimProduct} {c : FactCand}
    (hm : dim.filter (fun d => decide (d.product_id = c.item.product_id)) = []) :
    addProductKeyOne dim c = [c] := by
  unfold addProductKeyOne
  rw [hm]

theorem addProductKeyOne_cons {dim : List DimProduct} {c : FactCand}
    {d : DimProduct} {ds : List DimProduct}
    (hm : dim.filter (fun x => decide (x.product_id = c.item.product_id)) =
      d :: ds) :
    addProductKeyOne dim c =
      (d :: ds).map (fun x => { c with product_key := some x.product_key }) := by
  unfold addProductKeyOne
  rw [hm]

theorem addDateKeyOne_none {dim : List DimDateRow} {c : FactCand}
    (h : purchaseDate c = none) : addDateKeyOne dim c = [c] := by
  unfold addDateKeyOne
  rw [h]

theorem addDateKeyOne_some_nil {dim : List DimDateRow} {c : FactCand}
    {day : ℕ} (h : purchaseDate c = some day)
    (hm : dim.filter (fun r => decide (r.date = day)) = []) :
    addDateKeyOne dim c = [c] := by
  unfold addDateKeyOne
  rw [h]
  show (match dim.filter (fun r => decide (r.date = day)) with
        | [] => [c]
        | ms => ms.map (fun (r : DimDateRow) =>
            { c with order_date_key := some r.date_key }))
      = [c]
  rw [hm]

theorem addDateKeyOne_some_cons {dim : List DimDateRow} {c : FactCand}
    {day : ℕ} {d : DimDateRow} {ds : List DimDateRow}
    (h : purchaseDate c = some day)
    (hm : dim.filter (fun r => decide (r.date = day)) = d :: ds) :
    addDateKeyOne dim c =
      (d :: ds).map (fun (r : DimDateRow) =>
        { c with order_date_key := some r.date_key }) := by
  unfold addDateKeyOne
  rw [h]
  show (match dim.filter (fun r => decide (r.date = day)) with
        | [] => [c]
        | ms => ms.map (fun (r : DimDateRow) =>
            { c with order_date_key := some r.date_key }))
      = _
  rw [hm]

theorem mem_merge1 {items : List OrderItem} {orders : List OrderRow}
    {c : FactCand} (h : c ∈ merge1 items orders) :
    c.item ∈ items ∧ c.customer_key = none ∧ c.product_key = none ∧
      c.order_date_key = none := by
  unfold merge1 at h
  rw [List.mem_flatMap] at h
  rcases h with ⟨it, hit, hc⟩
  cases hm : orders.filter (fun o => decide (o.order_id = it.order_id)) with
  | nil =>
    rw [merge1One_nil hm] at hc
    simp only [List.mem_singleton] at hc
    subst hc
    exact ⟨hit, rfl, rfl, rfl⟩
  | cons o os =>
    rw [merge1One_cons hm] at hc
    simp only [List.mem_map] at hc
    rcases hc with ⟨o2, _, hc⟩
    subst hc
    exact ⟨hit, rfl, rfl, rfl⟩

theorem mem_addCustomerKey {dim : List DimCustomer} {cs : List FactCand}
    {c : FactCand} (h : c ∈ addCustomerKey dim cs) :
    ∃ c0 ∈ cs, c.item = c0.item ∧ c.ord = c0.ord ∧
      c.product_key = c0.product_key ∧ c.order_date_key = c0.order_date_key ∧
      (c.customer_key = c0.customer_key ∨
        ∃ d ∈ dim, c.customer_key = some d.customer_key) := by
  unfold addCustomerKey at h
  rw [List.mem_flatMap] at h
  rcases h with ⟨c0, hc0, hc⟩
  refine ⟨c0, hc0, ?_⟩
  cases ho : c0.ord with
  | none =>
    rw [addCustomerKeyOne_none ho] at hc
    simp only [List.mem_singleton] at hc
    subst hc
    exact ⟨rfl, ho, rfl, rfl, Or.inl rfl⟩
  | some o =>
    cases hm : dim.filter (fun d => decide (d.customer_id = o.customer_id)) with
    | nil =>
      rw [addCustomerKeyOne_some_nil ho hm] at hc
      simp only [List.mem_singleton] at hc
      subst hc
      exact ⟨rfl, ho, rfl, rfl, Or.inl rfl⟩
    | cons d ds =>
      rw [addCustomerKeyOne_some_cons ho hm] at hc
      simp only [List.mem_map] at hc
      rcases hc with ⟨d0, hd0, hc⟩
      subst hc
      have hd0dim : d0 ∈ dim := by
        have hmem : d0 ∈ d :: ds := hd0
        rw [← hm] at hmem
        exact (List.mem_filter.mp hmem).1
      exact ⟨rfl, rfl, rfl, rfl, Or.inr ⟨d0, hd0dim, rfl⟩⟩

theorem mem_addProductKey {dim : List DimProduct} {cs : List FactCand}
    {c : FactCand} (h : c ∈ addProductKey dim cs) :
    ∃ c0 ∈ cs, c.item = c0.item ∧ c.ord = c0.ord ∧
      c.customer_key = c0.customer_key ∧
      c.order_date_key = c0.order_date_key ∧
      (c.product_key = c0.product_key ∨
        ∃ d ∈ dim, c.product_key = some d.product_key) := by
  unfold addProductKey at h
  rw [List.mem_flatMap] at h
  rcases h with ⟨c0, hc0, hc⟩
  refine ⟨c0, hc0, ?_⟩
  cases hm : dim.filter (fun d => decide (d.product_id = c0.item.product_id)) with
  | nil =>
    rw [addProductKeyOne_nil hm] at hc
    simp only [List.mem_singleton] at hc
    subst hc
    exact ⟨rfl, rfl, rfl, rfl, Or.inl rfl⟩
  | cons d ds =>
    rw [addProductKeyOne_cons hm] at hc
    simp only [List.mem_map] at hc
    rcases hc with ⟨d0, hd0, hc⟩
    subst hc
    have hd0dim : d0 ∈ dim := by
      have hmem : d0 ∈ d :: ds := hd0
      rw [← hm] at hmem
      exact (List.mem_filter.mp hmem).1
    exact ⟨rfl, rfl, rfl, rfl, Or.inr ⟨d0, hd0dim, rfl⟩⟩

theorem mem_addDateKey {dim : List DimDateRow} {cs : List FactCand}
    {c : FactCand} (h : c ∈ addDateKey dim cs) :
    ∃ c0 ∈ cs, c.item = c0.item ∧ c.ord = c0.ord ∧
      c.customer_key = c0.customer_key ∧ c.product_key = c0.product_key ∧
      (c.order_date_key = c0.order_date_key ∨
        ∃ d ∈ dim, c.order_date_key = some d.date_key) := by
  unfold addDateKey at h
  rw [List.mem_flatMap] at h
  rcases h with ⟨c0, hc0, hc⟩
  refine ⟨c0, hc0, ?_⟩
  cases hp : purchaseDate c0 with
  | none =>
    rw [addDateKeyOne_none hp] at hc
    simp only [List.mem_singleton] at hc
    subst hc
    exact ⟨rfl, rfl, rfl, rfl, Or.inl rfl⟩
  | some day =>
    cases hm : dim.filter (fun r => decide (r.date = day)) with
    | nil =>
      rw [addDateKeyOne_some_nil hp hm] at hc
      simp only [List.mem_singleton] at hc
      subst hc
      exact ⟨rfl, rfl, rfl, rfl, Or.inl rfl⟩
    | cons d ds =>
      rw [addDateKeyOne_some_cons hp hm] at hc
      simp only [List.mem_map] at hc
      rcases hc with ⟨d0, hd0, hc⟩
      subst hc
      have hd0dim : d0 ∈ dim := by
        have hmem : d0 ∈ d :: ds := hd0
        rw [← hm] at hmem
        exact (List.mem_filter.mp hmem).1
      exact ⟨rfl, rfl, rfl, rfl, Or.inr ⟨d0, hd0dim, rfl⟩⟩

theorem load_fact_orders_mem {items : List OrderItem} {orders : List OrderRow}
    {cdim : List DimCustomer} {pdim : List DimProduct} {ddim : List DimDateRow}
    {f : FactRow} (h : f ∈ load_fact_orders items orders cdim pdim ddim) :
    ∃ c ∈ addDateKey ddim (addProductKey pdim (addCustomerKey cdim
        (merge1 items orders))),
      f = toFactRow c ∧ f.customer_key.isSome = true ∧
      f.product_key.isSome = true ∧ f.order_date_key.isSome = true := by
  unfold load_fact_orders at h
  rw [List.mem_filter] at h
  rcases h with ⟨hmem, hkeys⟩
  rw [List.mem_map] at hmem
  rcases hmem with ⟨c, hc, hce⟩
  simp only [Bool.and_eq_true] at hkeys
  exact ⟨c, hc, hce.symm, hkeys.1.1, hkeys.1.2, hkeys.2⟩

/-- Claim C1: every row of the final fact set has non-null customer, product
and date surrogate keys, and each key value is the surrogate key of a row
of the corresponding persisted dimension; candidates failing any of the
three joins are removed by the dropna before insertion. -/
theorem load_fact_orders_resolved_keys (items : List OrderItem)
    (orders : List OrderRow) (cdim : List DimCustomer) (pdim : List DimProduct)
    (ddim : List DimDateRow) :
    ∀ f ∈ load_fact_orders items orders cdim pdim ddim,
      f.customer_key ≠ none ∧ f.product_key ≠ none ∧ f.order_date_key ≠ none ∧
      (∃ d ∈ cdim, f.customer_key = some d.customer_key) ∧
      (∃ d ∈ pdim, f.product_key = some d.product_key) ∧
      (∃ d ∈ ddim, f.order_date_key = some d.date_key) := by
  intro f hf
  rcases load_fact_orders_mem hf with ⟨c, hc, hfe, hck, hpk, hdk⟩
  rcases mem_addDateKey hc with ⟨c3, hc3, hi3, ho3, hck3, hpk3, hdate⟩
  rcases mem_addProductKey hc3 with ⟨c2, hc2, hi2, ho2, hck2, hdk2, hprod⟩
  rcases mem_addCustomerKey hc2 with ⟨c1, hc1, hi1, ho1, hpk1, hdk1, hcust⟩
  rcases mem_merge1 hc1 with ⟨hitem, hck1, hpk1z, hdk1z⟩
  have hfck : f.customer_key = c.customer_key := by rw [hfe]; rfl
  have hfpk : f.product_key = c.product_key := by rw [hfe]; rfl
  have hfdk : f.order_date_key = c.order_date_key := by rw [hfe]; rfl
  have hcustkey : ∃ d ∈ cdim, f.customer_key = some d.customer_key := by
    rcases hcust with hnone | ⟨d, hd, he⟩
    · exfalso
      rw [hfck, hck3, hck2, hnone, hck1] at hck
      exact absurd hck (by simp)
    · exact ⟨d, hd, by rw [hfck, hck3, hck2, he]⟩
  have hprodkey : ∃ d ∈ pdim, f.product_key = some d.product_key := by
    rcases hprod with hnone | ⟨d, hd, he⟩
    · exfalso
      rw [hfpk, hpk3, hnone, hpk1, hpk1z] at hpk
      exact absurd hpk (by simp)
    · exact ⟨d, hd, by rw [hfpk, hpk3, he]⟩
  have hdatekey : ∃ d ∈ ddim, f.order_date_key = some d.date_key := by
    rcases hdate with hnone | ⟨d, hd, he⟩
    · exfalso
      rw [hfdk, hnone, hdk2, hdk1, hdk1z] at hdk
      exact absurd hdk (by simp)
    · exact ⟨d, hd, by rw [hfdk, he]⟩
  refine ⟨?_, ?_, ?_, hcustkey, hprodkey, hdatekey⟩
  · rcases hcustkey with ⟨d, _, he⟩
    rw [he]; simp
  · rcases hprodkey with ⟨d, _, he⟩
    rw [he]; simp
  · rcases hdatekey with ⟨d, _, he⟩
    rw [he]; simp

/-- Claim C1 witness: the end-to-end scenario of one order, one line item
priced 100 and matching dimension rows yields a fact row whose three keys
are the pre-existing dimension surrogate keys 7, 9 and 3. -/
theorem load_fact_orders_resolved_keys_witness :
    (∃ d ∈ witCdim, witFact.customer_key = some d.customer_key) ∧
    (∃ d ∈ witPdim, witFact.product_key = some d.product_key) ∧
    (∃ d ∈ witDdim, witFact.order_date_key = some d.date_key) := by
  have h := load_fact_orders_resolved_keys witItems witOrders witCdim witPdim
    witDdim witFact (by decide)
  exact ⟨h.2.2.2.1, h.2.2.2.2.1, h.2.2.2.2.2⟩

/-- Claim C8: every row of the final fact set carries the price and
freight_value of a source line item with the same order id and line-item
id, unmodified: the merges and the key resolution change only keys and
enrichment columns, never the measures of a surviving row. -/
theorem load_fact_orders_measures_preserved (items : List OrderItem)
    (orders : List OrderRow) (cdim : List DimCustomer) (pdim : List DimProduct)
    (ddim : List DimDateRow) :
    ∀ f ∈ load_fact_orders items orders cdim pdim ddim,
      ∃ it ∈ items, f.order_id = it.order_id ∧
        f.order_item_id = it.order_item_id ∧ f.seller_id = it.seller_id ∧
        f.price = it.price ∧ f.freight_value = it.freight_value := by
  intro f hf
  rcases load_fact_orders_mem hf with ⟨c, hc, hfe, _, _, _⟩
  rcases mem_addDateKey hc with ⟨c3, hc3, hi3, _, _, _, _⟩
  rcases mem_addProductKey hc3 with ⟨c2, hc2, hi2, _, _, _, _⟩
  rcases mem_addCustomerKey hc2 with ⟨c1, hc1, hi1, _, _, _, _⟩
  rcases mem_merge1 hc1 with ⟨hitem, _, _, _⟩
  refine ⟨c.item, ?_, ?_, ?_, ?_, ?_, ?_⟩
  · rw [hi3, hi2, hi1]; exact hitem
  · rw [hfe]; rfl
  · rw [hfe]; rfl
  · rw [hfe]; rfl
  · rw [hfe]; rfl
  · rw [hfe]; rfl

/-- Claim C8 witness: the fact row of the end-to-end scenario carries the
source line item measures 100 and 10 unmodified. -/
theorem load_fact_orders_measures_preserved_witness :
    ∃ it ∈ witItems, witFact.price = it.price ∧
      witFact.freight_value = it.freight_value := by
  rcases load_fact_orders_measures_preserved witItems witOrders witCdim witPdim
    witDdim witFact (by decide) with ⟨it, hit, _, _, _, hp, hfr⟩
  exact ⟨it, hit, hp, hfr⟩

theorem filter_map_nodup_eq_singleton {α β : Type} [DecidableEq β] (f : α → β) :
    ∀ (l : List α), (l.map f).Nodup → ∀ a ∈ l,
      l.filter (fun x => decide (f x = f a)) = [a] := by
  intro l
  induction l with
  | nil => intro _ a ha; exact absurd ha (by simp)
  | cons x xs ih =>
    intro hnd a ha
    rw [List.map_cons, List.nodup_cons] at hnd
    rcases hnd with ⟨hnotin, hnd⟩
    rcases List.mem_cons.mp ha with hax | haxs
    · subst hax
      rw [List.filter_cons]
      have hp : decide (f a = f a) = true := by simp
      rw [if_pos hp]
      have hnil : xs.filter (fun x => decide (f x = f a)) = [] := by
        rw [List.filter_eq_nil_iff]
        intro b hb
        simp only [decide_eq_true_eq]
        intro hfb
        exact hnotin (hfb ▸ List.mem_map_of_mem f hb)
      rw [hnil]
    · rw [List.filter_cons]
      have hne : f x ≠ f a := by
        intro hc
        exact hnotin (hc ▸ List.mem_map_of_mem f haxs)
      have hp : decide (f x = f a) = false := decide_eq_false hne
      rw [hp, if_neg (by simp)]
      exact ih hnd a haxs

/-- Claim C9: the date key of a fact candidate is resolved by equality on
the calendar-day portion of the purchase timestamp, at day granularity:
whenever the persisted date dimension has pairwise distinct dates and
holds a record r for the day of the purchase timestamp t (t / 86400 =
r.date), resolution assigns exactly r.date_key, independently of the
time-of-day component of t. -/
theorem addDateKey_resolves_day (ddim : List DimDateRow) (c : FactCand)
    (r : DimDateRow) (t : ℕ)
    (hnodup : (ddim.map DimDateRow.date).Nodup)
    (hr : r ∈ ddim)
    (ht : c.ord.bind OrderRow.order_purchase_timestamp = some t)
    (hd : t / 86400 = r.date) :
    addDateKey ddim [c] = [{ c with order_date_key := some r.date_key }] := by
  have hp : purchaseDate c = some r.date := by
    unfold purchaseDate
    rw [ht]
    simp [hd]
  have hfilter : ddim.filter (fun x => decide (x.date = r.date)) = [r] := by
    have := filter_map_nodup_eq_singleton DimDateRow.date ddim hnodup r hr
    exact this
  unfold addDateKey
  rw [List.flatMap_cons, List.flatMap_nil, List.append_nil,
    addDateKeyOne_some_cons hp hfilter]
  rfl

/-- Claim C9 witness: a candidate purchased at second 1494410400 (10:00 on
day 17296) resolves to the key of the dimension record of day 17296,
key 3, despite the non-midnight time of day. -/
theorem addDateKey_resolves_day_witness :
    addDateKey witDdim [witCand] =
      [{ witCand with order_date_key := some 3 }] := by
  exact addDateKey_resolves_day witDdim witCand
    { date_key := 3, date := 17296 } 1494410400 (by decide) (by decide)
    (by decide) (by decide)

end EcomPipeline
